import Mathlib

/-!
# gomapgen: layered tile grid (package gmgmap)

A shallow embedding of `gmgmap/map.go` and of the parts of `gmgmap/tmx.go`
that the verified properties need.

Conventions of the embedding
* A Go `int` is an `Int`; every arithmetic result is passed through `wrap64`,
  the two's-complement wrap-around of a 64-bit signed integer.
* A Go `rune` is an `Int` (its code point).
* A slice is a `List`; indexing outside `[0, len)` is a run-time fault
  (a Go "index out of range"), written `none`.
* A `for v := a; v < b; v++` loop whose bounds the body does not change runs
  `(b - a).toNat` times with `v = a, a+1, ...` (`forLoop`).
* `[]*Layer` is a `List Layer`: the layers of a map are distinct objects, and a
  returned `*Layer` is the position of that layer in `Map.Layers`.
-/

namespace Gmgmap

/-! ## Machine integers -/

/-- Two's-complement wrap-around of a 64-bit signed integer. -/
def wrap64 (n : Int) : Int :=
  (n + 9223372036854775808) % 18446744073709551616 - 9223372036854775808

/-- The value is representable as a Go `int` (64 bit). -/
def isInt64 (n : Int) : Prop :=
  -9223372036854775808 ≤ n ∧ n < 9223372036854775808

instance (n : Int) : Decidable (isInt64 n) := by
  unfold isInt64; exact inferInstance

/-- A Go `rune`. -/
abbrev Rune := Int

/-! ## Data model (map.go, lines 5-50) -/

/-- Layer - a rectangular collection of tiles. -/
structure Layer where
  Name : String
  Tiles : List Rune
  Width : Int
  Height : Int
  deriving DecidableEq, Repr

/-- Map - a rectangular tile map. -/
structure Map where
  Layers : List Layer
  Width : Int
  Height : Int
  deriving DecidableEq, Repr

/-- Tile `' '`. -/
def nothing : Rune := 32
/-- Tile `'f'`. -/
def floor : Rune := 102
/-- Tile `'F'`. -/
def floor2 : Rune := 70
/-- Tile `'r'`. -/
def road : Rune := 114
/-- Tile `'w'`. -/
def wall : Rune := 119
/-- Tile `'W'`. -/
def wall2 : Rune := 87
/-- Tile `'.'`. -/
def room : Rune := 46
/-- Tile `'#'`. -/
def room2 : Rune := 35
/-- Tile `'+'`. -/
def door : Rune := 43
/-- Tile `'<'`. -/
def stairsUp : Rune := 60
/-- Tile `'>'`. -/
def stairsDown : Rune := 62
/-- Tile `'T'`. -/
def tree : Rune := 84
/-- Tile `'g'`. -/
def grass : Rune := 103
/-- Flavour tile `'s'`. -/
def sign : Rune := 115
/-- Flavour tile `'h'`: stuff that goes on indoor walls. -/
def hanging : Rune := 104
/-- Flavour tile `'o'`. -/
def window : Rune := 111
/-- Flavour tile `'_'`. -/
def counter : Rune := 95
/-- Flavour tile `'A'`. -/
def shopkeeper : Rune := 65
/-- Flavour tile `'S'`. -/
def shelf : Rune := 83
/-- Flavour tile `')'`. -/
def stock : Rune := 41
/-- Flavour tile `'t'`. -/
def table : Rune := 116
/-- Flavour tile `'c'`. -/
def chair : Rune := 99
/-- Flavour tile `'~'`. -/
def rug : Rune := 126
/-- Flavour tile `'('`. -/
def pot : Rune := 40
/-- Flavour tile `'a'`. -/
def assistant : Rune := 97
/-- Flavour tile `'@'`. -/
def player : Rune := 64

/-! ## Loops -/

/-- The loop `for v := a; v < b; v++ { body }` entered with `n = (b - a).toNat`:
`n` iterations, the loop variable starting at `a`; a fault in the body ends the
loop with that fault. Inside the loop `v < b`, so `v++` never overflows. -/
def forLoop {σ : Type} (body : Int → σ → Option σ) : Nat → Int → σ → Option σ
  | 0, _, s => some s
  | n + 1, v, s =>
    match body v s with
    | none => none
    | some s' => forLoop body n (v + 1) s'

/-! ## Layer access (map.go, lines 83-89) -/

/-- The slot `x+y*l.Width` as Go computes it. -/
def Layer.slot (l : Layer) (x y : Int) : Int :=
  wrap64 (x + wrap64 (y * l.Width))

/-- Translation of `func (l Layer) getTile(x, y int) rune`:
`return l.Tiles[x+y*l.Width]`. -/
def Layer.getTile (l : Layer) (x y : Int) : Option Rune :=
  if 0 ≤ l.slot x y then l.Tiles[(l.slot x y).toNat]? else none

/-- Translation of `func (l *Layer) setTile(x, y int, tile rune)`:
`l.Tiles[x+y*l.Width] = tile`. -/
def Layer.setTile (l : Layer) (x y : Int) (tile : Rune) : Option Layer :=
  if 0 ≤ l.slot x y ∧ (l.slot x y).toNat < l.Tiles.length then
    some { l with Tiles := l.Tiles.set (l.slot x y).toNat tile }
  else none

/-- The coordinate is inside the layer: `0 <= x < Width`, `0 <= y < Height`. -/
def Layer.inBounds (l : Layer) (x y : Int) : Prop :=
  0 ≤ x ∧ x < l.Width ∧ 0 ≤ y ∧ y < l.Height

instance (l : Layer) (x y : Int) : Decidable (l.inBounds x y) := by
  unfold Layer.inBounds; exact inferInstance

/-- The data-model invariant of a layer: `len(Tiles) = Width*Height`, with
`Width`, `Height` and the length representable Go `int`s. -/
def Layer.wellFormed (l : Layer) : Prop :=
  0 ≤ l.Width ∧ 0 ≤ l.Height ∧ isInt64 l.Width ∧ isInt64 l.Height ∧
  isInt64 (l.Width * l.Height) ∧ (l.Tiles.length : Int) = l.Width * l.Height

instance (l : Layer) : Decidable l.wellFormed := by
  unfold Layer.wellFormed; exact inferInstance

/-! ## Construction and filling (map.go, lines 52-98) -/

/-- Translation of `func (l *Layer) fill(tile rune)`: two nested counting loops,
`y` over `[0, Height)` outside and `x` over `[0, Width)` inside, each calling
`setTile(x, y, tile)`. The body writes only elements of `Tiles`, so both bounds
are loop-invariant. -/
def Layer.fill (l : Layer) (tile : Rune) : Option Layer :=
  forLoop
    (fun y l1 => forLoop (fun x l2 => l2.setTile x y tile) (l1.Width - 0).toNat 0 l1)
    (l.Height - 0).toNat 0 l

/-- Translation of `newLayer`: `make([]rune, width*height)` faults on a negative
length and otherwise yields that many zero runes (the allocation limit of the
run time is not modelled); then `l.fill(nothing)`. -/
def newLayer (name : String) (width height : Int) : Option Layer :=
  if wrap64 (width * height) < 0 then none
  else
    Layer.fill
      { Name := name, Tiles := List.replicate (wrap64 (width * height)).toNat 0,
        Width := width, Height := height }
      nothing

/-- Translation of `NewMap`: a map with the two layers "Ground" and
"Structures", in that order. -/
def NewMap (width height : Int) : Option Map :=
  match newLayer "Ground" width height with
  | none => none
  | some g =>
    match newLayer "Structures" width height with
    | none => none
    | some s => some { Layers := [g, s], Width := width, Height := height }

/-- The `range m.Layers` search of `Map.Layer`: position of the first layer
whose `Name == name`. -/
def layerIndex (name : String) : List Layer → Option Nat
  | [] => none
  | l :: rest =>
    if l.Name = name then some 0
    else
      match layerIndex name rest with
      | none => none
      | some i => some (i + 1)

/-- Translation of `func (m *Map) Layer(name string) *Layer`. The result is the
map after the call together with the position in `Layers` of the returned
layer (`len(m.Layers)-1` when a layer was appended). -/
def Map.Layer (m : Map) (name : String) : Option (Map × Nat) :=
  match layerIndex name m.Layers with
  | some i => some (m, i)
  | none =>
    match newLayer name m.Width m.Height with
    | none => none
    | some l => some ({ m with Layers := m.Layers ++ [l] }, (m.Layers ++ [l]).length - 1)

/-- A sequence of `m.Layer(name)` calls, one per name, threading the map. -/
def layerCalls : Map → List String → Option Map
  | m, [] => some m
  | m, name :: names =>
    match m.Layer name with
    | none => none
    | some (m1, _) => layerCalls m1 names

/-! ## Rectangles (map.go, lines 100-109) -/

/-- Modelled from the spec: the type `rect` is declared outside the two source
files; `rectangle` uses its fields `x`, `y`, `w`, `h` (origin, width, height of
the area). -/
structure rect where
  x : Int
  y : Int
  w : Int
  h : Int
  deriving DecidableEq, Repr

/-- The guard of the write in `rectangle`:
`filled || x == r.x || y == r.y || x == r.x+r.w-1 || y == r.y+r.h-1`. -/
def rectangleGuard (r : rect) (filled : Bool) (x y : Int) : Bool :=
  filled || x == r.x || y == r.y || x == wrap64 (wrap64 (r.x + r.w) - 1) ||
    y == wrap64 (wrap64 (r.y + r.h) - 1)

/-- The loop nest of `rectangle`, with the cell write as a parameter:
`y` over `[r.y, r.y+r.h)` outside, `x` over `[r.x, r.x+r.w)` inside, and
`write x y` where the guard holds. -/
def rectangleWith {σ : Type} (write : Int → Int → σ → Option σ) (r : rect)
    (filled : Bool) (s : σ) : Option σ :=
  forLoop
    (fun y s1 =>
      forLoop (fun x s2 => if rectangleGuard r filled x y then write x y s2 else some s2)
        (wrap64 (r.x + r.w) - r.x).toNat r.x s1)
    (wrap64 (r.y + r.h) - r.y).toNat r.y s

/-- Translation of `func (l *Layer) rectangle(r rect, tile rune, filled bool)`:
the loop nest with `l.setTile(x, y, tile)` as the write. -/
def Layer.rectangle (l : Layer) (r : rect) (tile : Rune) (filled : Bool) : Option Layer :=
  rectangleWith (fun x y l1 => l1.setTile x y tile) r filled l

/-- The coordinates at which `rectangle` calls `setTile`, in call order: the same
loop nest with a write that records its coordinate. -/
def rectangleWrites (r : rect) (filled : Bool) : List (Int × Int) :=
  (rectangleWith (fun x y acc => some (acc ++ [(x, y)])) r filled []).getD []

/-- The rect lies wholly inside the layer. -/
def Layer.contains (l : Layer) (r : rect) : Prop :=
  0 ≤ r.x ∧ 0 ≤ r.y ∧ isInt64 r.w ∧ isInt64 r.h ∧
    r.x + r.w ≤ l.Width ∧ r.y + r.h ≤ l.Height

instance (l : Layer) (r : rect) : Decidable (l.contains r) := by
  unfold Layer.contains; exact inferInstance

/-- The cell lies in the area of the rect. -/
def rect.covers (r : rect) (cx cy : Int) : Prop :=
  r.x ≤ cx ∧ cx < r.x + r.w ∧ r.y ≤ cy ∧ cy < r.y + r.h

instance (r : rect) (cx cy : Int) : Decidable (r.covers cx cy) := by
  unfold rect.covers; exact inferInstance

/-- The cell lies on the top row, bottom row, left column or right column. -/
def rect.onBorder (r : rect) (cx cy : Int) : Prop :=
  cx = r.x ∨ cy = r.y ∨ cx = r.x + r.w - 1 ∨ cy = r.y + r.h - 1

instance (r : rect) (cx cy : Int) : Decidable (r.onBorder cx cy) := by
  unfold rect.onBorder; exact inferInstance

/-! ## Printing (map.go, lines 127-137) -/

/-- The layer loop of `Map.Print` for one cell, from layer number `index` on:
`tile := layer.getTile(x, y)`; when `index == len(m.Layers)-1 || tile != nothing`
the tile is printed and the loop left. The result is the rune printed for the
cell, or `some none` when the loop ends without printing. -/
def printCellFrom (total : Nat) (x y : Int) : Nat → List Layer → Option (Option Rune)
  | _, [] => some none
  | index, layer :: rest =>
    match layer.getTile x y with
    | none => none
    | some tile =>
      if (index : Int) = (total : Int) - 1 ∨ tile ≠ nothing then some (some tile)
      else printCellFrom total x y (index + 1) rest

/-- The rune `Map.Print` prints for cell `(x, y)`. -/
def Map.printCell (m : Map) (x y : Int) : Option (Option Rune) :=
  printCellFrom m.Layers.length x y 0 m.Layers

/-! ## Area test (map.go, lines 156-166) -/

/-- Inner loop of `isClear` (over `y`), `n` iterations from `y`: `some false`
is the early `return false`, `some true` the normal end of the loop. -/
def Layer.isClearColumn (l : Layer) (x : Int) : Nat → Int → Option Bool
  | 0, _ => some true
  | n + 1, y =>
    match l.getTile x y with
    | none => none
    | some t => if t ≠ nothing then some false else l.isClearColumn x n (y + 1)

/-- Outer loop of `isClear` (over `x`), `n` iterations from `x`. -/
def Layer.isClearFrom (l : Layer) (roomY : Int) (ny : Nat) : Nat → Int → Option Bool
  | 0, _ => some true
  | n + 1, x =>
    match l.isClearColumn x ny roomY with
    | none => none
    | some false => some false
    | some true => l.isClearFrom roomY ny n (x + 1)

/-- Translation of `func (l Layer) isClear(roomX, roomY, roomWidth, roomHeight int) bool`. -/
def Layer.isClear (l : Layer) (roomX roomY roomWidth roomHeight : Int) : Option Bool :=
  l.isClearFrom roomY (wrap64 (roomY + roomHeight) - roomY).toNat
    (wrap64 (roomX + roomWidth) - roomX).toNat roomX

/-! ## Counting tiles (map.go, lines 168-187) -/

/-- The loop `for v := a; v <= b; v++ { body }`. When `b` is the largest `int`
the condition `v <= b` never fails and the loop gives no result; otherwise it
runs `(b + 1 - a).toNat` times with `v = a, a+1, ...`. -/
def forLoopLe {σ : Type} (body : Int → σ → Option σ) (a b : Int) (s : σ) : Option σ :=
  if b = 9223372036854775807 then none else forLoop body (b + 1 - a).toNat a s

/-- Translation of `func (l Layer) countTiles(x, y, r int, tile rune) int`: the
state of the two loops is the counter `c`, and `c++` wraps as a Go `int`. -/
def Layer.countTiles (l : Layer) (x y r : Int) (tile : Rune) : Option Int :=
  forLoopLe
    (fun xi c =>
      forLoopLe
        (fun yi c1 =>
          if xi < 0 ∨ xi ≥ l.Width ∨ yi < 0 ∨ yi ≥ l.Height then some (wrap64 (c1 + 1))
          else
            match l.getTile xi yi with
            | none => none
            | some t => if t = tile then some (wrap64 (c1 + 1)) else some c1)
        (wrap64 (y - r)) (wrap64 (y + r)) c)
    (wrap64 (x - r)) (wrap64 (x + r)) 0

/-- Translation of `func IsWall(tile rune) bool`. -/
def IsWall (tile : Rune) : Bool :=
  tile == wall || tile == wall2

/-! ## TMX export (tmx.go) -/

/-- TMXTemplate - configuration for TMX export. Each array holds 16 tile ids:
first is centre, then 8 tiles from top clockwise, then h/v, then 4 end tiles
from top clockwise, then the isolated tile. -/
structure TMXTemplate where
  path : String
  nothingID : String
  floorIDs : List String
  floor2IDs : List String
  wallIDs : List String
  wall2IDs : List String
  roomIDs : List String
  room2IDs : List String
  doorH : String
  doorV : String
  floorTerrain : Bool
  floor2Terrain : Bool
  wallTerrain : Bool
  wall2Terrain : Bool
  roomTerrain : Bool
  room2Terrain : Bool
  Width : Int
  Height : Int
  CSV : String
  deriving DecidableEq, Repr

/-- DawnLikeTemplate - using DawnLike tile set. -/
def DawnLikeTemplate : TMXTemplate :=
  { path := "dawnlike"
    nothingID := "1031"
    floorIDs := ["1421", "1400", "1401", "1422", "1443", "1442", "1441", "1420", "1399",
      "1425", "1423", "1402", "1426", "1444", "1424", "1404"]
    floor2IDs := ["1176", "1155", "1156", "1177", "1198", "1197", "1196", "1175", "1154",
      "1180", "1178", "1157", "1181", "1199", "1179", "1159"]
    wallIDs := ["92", "72", "70", "93", "110", "112", "108", "91", "68", "69", "88", "88",
      "110", "89", "108", "71"]
    wall2IDs := ["85", "65", "63", "86", "103", "105", "101", "84", "61", "62", "81", "81",
      "103", "82", "101", "64"]
    roomIDs := ["1428", "1407", "1408", "1429", "1450", "1449", "1448", "1427", "1406",
      "1432", "1430", "1409", "1433", "1451", "1431", "1411"]
    room2IDs := ["1232", "1211", "1212", "1233", "1254", "1253", "1252", "1231", "1210",
      "1236", "1234", "1213", "1237", "1255", "1235", "1215"]
    doorH := "2096"
    doorV := "2097"
    floorTerrain := false
    floor2Terrain := true
    wallTerrain := true
    wall2Terrain := true
    roomTerrain := true
    room2Terrain := true
    Width := 0
    Height := 0
    CSV := "" }

/-- Modelled from the spec: tmx.go calls `m.GetTile(x, y)`, which returns a rune
and an error and is not defined in map.go. Spec 4.2 (`resolveVisible`): it fails
with `OutOfBounds` when `x` or `y` is outside `[0, width)` / `[0, height)`;
otherwise it scans the layers from bottom to top and returns the first tile
that is not `nothing`, the last layer's tile if all are `nothing` - the
resolution of the layer loop of `Map.Print`. The result `some (some t)` is
`(t, nil)`, `some none` is an error result (also when the map has no layer to
resolve), and `none` is a run-time fault of a layer read. -/
def Map.GetTile (m : Map) (x y : Int) : Option (Option Rune) :=
  if x < 0 ∨ x ≥ m.Width ∨ y < 0 ∨ y ≥ m.Height then some none else m.printCell x y

/-- Modelled from the spec: tmx.go sizes the export with `len(m.Tiles)`, a field
that `Map` in map.go does not declare. The export holds exactly `width*height`
index strings (spec 4.4 and 6), so the length is `m.Width*m.Height`. -/
def Map.tilesLen (m : Map) : Int :=
  wrap64 (m.Width * m.Height)

/-- Translation of `isSameTile`: `err == nil && other == tile`. -/
def isSameTile (m : Map) (x y : Int) (tile : Rune) : Option Bool :=
  match m.GetTile x y with
  | none => none
  | some none => some false
  | some (some other) => some (other == tile)

/-- The cases of the `switch` of `get16Tile`, in source order: the condition on
`up`, `right`, `down`, `left` and the index of `templateTiles` it returns. -/
def get16Cases : List ((Bool → Bool → Bool → Bool → Bool) × Nat) :=
  [ (fun up right down left => up && right && down && left, 0),
    (fun up right down left => !up && right && down && left, 1),
    (fun up right down left => !up && !right && down && left, 2),
    (fun up right down left => up && !right && down && left, 3),
    (fun up right down left => up && !right && !down && left, 4),
    (fun up right down left => up && right && !down && left, 5),
    (fun up right down left => up && right && !down && !left, 6),
    (fun up right down left => up && right && down && !left, 7),
    (fun up right down left => !up && right && down && !left, 8),
    (fun up right down left => !up && right && !down && left, 9),
    (fun up right down left => up && !right && down && !left, 10),
    (fun up right down left => !up && !right && down && !left, 11),
    (fun up right down left => !up && !right && !down && left, 12),
    (fun up right down left => up && !right && !down && !left, 13),
    (fun up right down left => !up && right && !down && !left, 14),
    (fun up right down left => !up && !right && !down && !left, 15) ]

/-- The `switch` of `get16Tile`: the index returned by the first case whose
condition holds; `none` is the `panic("unknown error")` after the switch. -/
def get16Slot (up right down left : Bool) : Option Nat :=
  match get16Cases.find? (fun c => c.1 up right down left) with
  | none => none
  | some c => some c.2

/-- Translation of `get16Tile`: the four neighbour tests, then the switch, then
the read `templateTiles[k]`. -/
def get16Tile (m : Map) (x y : Int) (tile : Rune) (templateTiles : List String) :
    Option String :=
  match isSameTile m x (wrap64 (y - 1)) tile with
  | none => none
  | some up =>
    match isSameTile m (wrap64 (x + 1)) y tile with
    | none => none
    | some right =>
      match isSameTile m x (wrap64 (y + 1)) tile with
      | none => none
      | some down =>
        match isSameTile m (wrap64 (x - 1)) y tile with
        | none => none
        | some left =>
          match get16Slot up right down left with
          | none => none
          | some k => templateTiles[k]?

/-- The body of the cell loop of `populateTemplate`, up to the write: the id
that is stored in `exportTiles[x+y*m.Width]`. `panic(err)`, an index out of
range and a fault of `get16Tile` are `none`; for a tile without a case in the
`switch`, `tileIDs` is still the nil slice. -/
def exportCell (m : Map) (t : TMXTemplate) (x y : Int) : Option String :=
  match m.GetTile x y with
  | none => none
  | some none => none
  | some (some tile) =>
    if tile = nothing then some t.nothingID
    else if tile = floor then
      if !t.floorTerrain then t.floorIDs[0]? else get16Tile m x y tile t.floorIDs
    else if tile = floor2 then
      if !t.floor2Terrain then t.floor2IDs[0]? else get16Tile m x y tile t.floor2IDs
    else if tile = wall then
      if !t.wallTerrain then t.wallIDs[0]? else get16Tile m x y tile t.wallIDs
    else if tile = wall2 then
      if !t.wall2Terrain then t.wall2IDs[0]? else get16Tile m x y tile t.wall2IDs
    else if tile = room then
      if !t.roomTerrain then t.roomIDs[0]? else get16Tile m x y tile t.roomIDs
    else if tile = room2 then
      if !t.room2Terrain then t.room2IDs[0]? else get16Tile m x y tile t.room2IDs
    else if tile = door then
      match m.GetTile (wrap64 (x - 1)) y with
      | none => none
      | some none => some t.doorH
      | some (some left) => if IsWall left then some t.doorH else some t.doorV
    else get16Tile m x y tile []

/-- The write `exportTiles[x+y*m.Width] = id`. -/
def storeCell (m : Map) (x y : Int) (id : String) (tiles : List String) :
    Option (List String) :=
  if 0 ≤ wrap64 (x + wrap64 (y * m.Width)) ∧
      (wrap64 (x + wrap64 (y * m.Width))).toNat < tiles.length then
    some (tiles.set (wrap64 (x + wrap64 (y * m.Width))).toNat id)
  else none

/-- The slice `exportTiles` at the end of the loops of `populateTemplate`:
`make([]string, len(m.Tiles))`, then for `y` over `[0, Height)` and `x` over
`[0, Width)` the id of the cell is stored at `x+y*m.Width`. -/
def exportTiles (m : Map) (t : TMXTemplate) : Option (List String) :=
  if m.tilesLen < 0 then none
  else
    forLoop
      (fun y tiles =>
        forLoop
          (fun x tiles1 =>
            match exportCell m t x y with
            | none => none
            | some id => storeCell m x y id tiles1)
          (m.Width - 0).toNat 0 tiles)
      (m.Height - 0).toNat 0 (List.replicate m.tilesLen.toNat "")

/-- Translation of `populateTemplate`: the template with `Width`, `Height` and
`CSV = strings.Join(exportTiles, ",")` set. -/
def populateTemplate (m : Map) (t : TMXTemplate) : Option TMXTemplate :=
  match exportTiles m t with
  | none => none
  | some tiles =>
    some { t with Width := m.Width, Height := m.Height, CSV := String.intercalate "," tiles }

/-! ## Specification vocabulary -/

/-- Layer `l'` is `l` with the in-bounds cells selected by `P` set to `s`: same
`Name`, `Width`, `Height` and `len(Tiles)`, the selected cells read `s`, every
other in-bounds cell reads as in `l`. -/
def Layer.paintedFrom (l' l : Layer) (P : Int → Int → Prop) (s : Rune) : Prop :=
  l'.Name = l.Name ∧ l'.Width = l.Width ∧ l'.Height = l.Height ∧
  l'.Tiles.length = l.Tiles.length ∧
  ∀ cx cy, l.inBounds cx cy →
    (P cx cy → l'.getTile cx cy = some s) ∧
    (¬ P cx cy → l'.getTile cx cy = l.getTile cx cy)

/-- The number of positions of the square `[x-r, x+r] x [y-r, y+r]` that are out
of bounds, plus the number of its in-bounds positions whose tile equals `t`. -/
def Layer.matchingInSquare (l : Layer) (x y r : Int) (t : Rune) : Nat :=
  ((Finset.Icc (x - r) (x + r) ×ˢ Finset.Icc (y - r) (y + r)).filter
      (fun p => ¬ l.inBounds p.1 p.2)).card +
  ((Finset.Icc (x - r) (x + r) ×ˢ Finset.Icc (y - r) (y + r)).filter
      (fun p => l.inBounds p.1 p.2 ∧ l.getTile p.1 p.2 = some t)).card

/-- What one position of the square adds to the counter of `countTiles`. -/
def Layer.cellCount (l : Layer) (t : Rune) (xi yi : Int) : Nat :=
  if ¬ l.inBounds xi yi then 1 else if l.getTile xi yi = some t then 1 else 0

/-- The terrain flag and id array that the `switch` of `populateTemplate` uses
for a terrain tile; `none` for every other tile. -/
def TMXTemplate.terrain (t : TMXTemplate) (tile : Rune) : Option (Bool × List String) :=
  if tile = floor then some (t.floorTerrain, t.floorIDs)
  else if tile = floor2 then some (t.floor2Terrain, t.floor2IDs)
  else if tile = wall then some (t.wallTerrain, t.wallIDs)
  else if tile = wall2 then some (t.wall2Terrain, t.wall2IDs)
  else if tile = room then some (t.roomTerrain, t.roomIDs)
  else if tile = room2 then some (t.room2Terrain, t.room2IDs)
  else none

/-- The data-model invariant of a map: every layer is well formed and has the
map's `Width` and `Height`. -/
def Map.wellFormed (m : Map) : Prop :=
  ∀ l ∈ m.Layers, l.wellFormed ∧ l.Width = m.Width ∧ l.Height = m.Height

/-- The coordinate is inside the map: `0 <= x < Width`, `0 <= y < Height`. -/
def Map.inBounds (m : Map) (x y : Int) : Prop :=
  0 ≤ x ∧ x < m.Width ∧ 0 ≤ y ∧ y < m.Height

instance (m : Map) (x y : Int) : Decidable (m.inBounds x y) := by
  unfold Map.inBounds; exact inferInstance

/-- The tiles for which the `switch` of `populateTemplate` has a case. -/
def exportable (tile : Rune) : Prop :=
  tile = nothing ∨ tile = floor ∨ tile = floor2 ∨ tile = wall ∨ tile = wall2 ∨
  tile = room ∨ tile = room2 ∨ tile = door

instance (tile : Rune) : Decidable (exportable tile) := by
  unfold exportable; exact inferInstance

/-- Each of the six id arrays of the template has 16 entries. -/
def TMXTemplate.arrays16 (t : TMXTemplate) : Prop :=
  t.floorIDs.length = 16 ∧ t.floor2IDs.length = 16 ∧ t.wallIDs.length = 16 ∧
  t.wall2IDs.length = 16 ∧ t.roomIDs.length = 16 ∧ t.room2IDs.length = 16

instance (t : TMXTemplate) : Decidable t.arrays16 := by
  unfold TMXTemplate.arrays16; exact inferInstance

/-- The 3x3 single-layer map that is `nothing` everywhere except `wall` at the
centre `(1, 1)`. -/
def centreWallMap : Map :=
  ⟨[⟨"Ground", [nothing, nothing, nothing, nothing, wall, nothing, nothing, nothing, nothing],
    3, 3⟩], 3, 3⟩

/-- The dimensions of the map are non-negative Go `int`s with a representable
product. -/
def Map.dimsOk (m : Map) : Prop :=
  0 ≤ m.Width ∧ 0 ≤ m.Height ∧ isInt64 m.Width ∧ isInt64 m.Height ∧
  isInt64 (m.Width * m.Height)

instance (m : Map) : Decidable m.dimsOk := by
  unfold Map.dimsOk; exact inferInstance

instance (m : Map) : Decidable m.wellFormed := by
  unfold Map.wellFormed; exact inferInstance

/-! ## Arithmetic helpers -/

theorem wrap64_of_isInt64 {n : Int} (h : isInt64 n) : wrap64 n = n := by
  unfold isInt64 at h
  unfold wrap64
  omega

theorem slot_lt_of_inBounds {W H x y : Int} (hx0 : 0 ≤ x) (hxW : x < W)
    (hy0 : 0 ≤ y) (hyH : y < H) : 0 ≤ x + y * W ∧ x + y * W < W * H := by
  constructor
  · have : 0 ≤ y * W := Int.mul_nonneg hy0 (by omega)
    omega
  · have h1 : (y + 1) * W ≤ H * W := Int.mul_le_mul_of_nonneg_right (by omega) (by omega)
    have h2 : (y + 1) * W = y * W + W := by ring
    have h3 : H * W = W * H := by ring
    omega

theorem mul_isInt64_of_inBounds {W H y : Int} (hW : 0 ≤ W) (hy0 : 0 ≤ y)
    (hyH : y < H) (hWH : isInt64 (W * H)) : isInt64 (y * W) := by
  unfold isInt64 at *
  have h0 : 0 ≤ y * W := Int.mul_nonneg hy0 hW
  have h1 : y * W ≤ H * W := Int.mul_le_mul_of_nonneg_right (by omega) hW
  have h3 : H * W = W * H := by ring
  omega

/-- On a well-formed layer the slot of an in-bounds coordinate is computed
without overflow and lies in `[0, len(Tiles))`. -/
theorem slot_of_inBounds {l : Layer} (hwf : l.wellFormed) {x y : Int}
    (hb : l.inBounds x y) :
    l.slot x y = x + y * l.Width ∧ 0 ≤ l.slot x y ∧
      (l.slot x y).toNat < l.Tiles.length := by
  obtain ⟨hW, hH, hWi, hHi, hWHi, hlen⟩ := hwf
  obtain ⟨hx0, hxW, hy0, hyH⟩ := hb
  have hs := slot_lt_of_inBounds hx0 hxW hy0 hyH
  have hm := mul_isInt64_of_inBounds hW hy0 hyH hWHi
  have e1 : wrap64 (y * l.Width) = y * l.Width := wrap64_of_isInt64 hm
  have e2 : wrap64 (x + y * l.Width) = x + y * l.Width := by
    apply wrap64_of_isInt64
    unfold isInt64 at *
    omega
  have e : l.slot x y = x + y * l.Width := by
    unfold Layer.slot
    rw [e1, e2]
  refine ⟨e, by omega, ?_⟩
  rw [e]
  omega

/-! ## Reading and writing one cell -/

theorem slot_inj {l : Layer} (hwf : l.wellFormed) {x1 y1 x2 y2 : Int}
    (h1 : l.inBounds x1 y1) (h2 : l.inBounds x2 y2)
    (h : l.slot x1 y1 = l.slot x2 y2) : x1 = x2 ∧ y1 = y2 := by
  rw [(slot_of_inBounds hwf h1).1, (slot_of_inBounds hwf h2).1] at h
  obtain ⟨hx1, hx1W, -, -⟩ := h1
  obtain ⟨hx2, hx2W, -, -⟩ := h2
  have hW : 0 < l.Width := by omega
  have m1 : (x1 + y1 * l.Width) % l.Width = x1 := by
    rw [Int.add_mul_emod_self]; exact Int.emod_eq_of_lt hx1 hx1W
  have m2 : (x2 + y2 * l.Width) % l.Width = x2 := by
    rw [Int.add_mul_emod_self]; exact Int.emod_eq_of_lt hx2 hx2W
  have hx : x1 = x2 := by rw [← m1, ← m2, h]
  subst hx
  have hy : y1 * l.Width = y2 * l.Width := by omega
  exact ⟨rfl, Int.eq_of_mul_eq_mul_right (by omega) hy⟩

theorem setTile_eq_some {l : Layer} (hwf : l.wellFormed) {x y : Int}
    (hb : l.inBounds x y) (s : Rune) :
    l.setTile x y s = some { l with Tiles := l.Tiles.set (l.slot x y).toNat s } := by
  obtain ⟨-, h0, hlt⟩ := slot_of_inBounds hwf hb
  unfold Layer.setTile
  rw [if_pos ⟨h0, hlt⟩]

theorem getTile_eq_getElem? {l : Layer} (hwf : l.wellFormed) {x y : Int}
    (hb : l.inBounds x y) : l.getTile x y = l.Tiles[(l.slot x y).toNat]? := by
  obtain ⟨-, h0, -⟩ := slot_of_inBounds hwf hb
  unfold Layer.getTile
  rw [if_pos h0]

/-- A successful `setTile` changes nothing but one element of `Tiles`. -/
theorem setTile_fields {l l' : Layer} {x y : Int} {s : Rune}
    (h : l.setTile x y s = some l') :
    l'.Name = l.Name ∧ l'.Width = l.Width ∧ l'.Height = l.Height ∧
      l'.Tiles.length = l.Tiles.length := by
  unfold Layer.setTile at h
  split at h
  · cases h
    simp
  · cases h

theorem setTile_wellFormed {l l' : Layer} {x y : Int} {s : Rune}
    (hwf : l.wellFormed) (h : l.setTile x y s = some l') : l'.wellFormed := by
  obtain ⟨-, hW, hH, hlen⟩ := setTile_fields h
  unfold Layer.wellFormed at *
  rw [hW, hH, hlen]
  exact hwf

theorem setTile_inBounds {l l' : Layer} {x y : Int} {s : Rune}
    (h : l.setTile x y s = some l') (cx cy : Int) :
    l'.inBounds cx cy ↔ l.inBounds cx cy := by
  obtain ⟨-, hW, hH, -⟩ := setTile_fields h
  unfold Layer.inBounds
  rw [hW, hH]

/-- Reading the cell just written, on any layer. -/
theorem getTile_of_setTile {l l' : Layer} {x y : Int} {s : Rune}
    (h : l.setTile x y s = some l') : l'.getTile x y = some s := by
  unfold Layer.setTile at h
  split at h
  · rename_i hc
    cases h
    unfold Layer.getTile Layer.slot
    simp only []
    unfold Layer.slot at hc
    rw [if_pos hc.1]
    simp [hc.2]
  · cases h

/-- Reading another in-bounds cell after a write. -/
theorem getTile_of_setTile_ne {l l' : Layer} (hwf : l.wellFormed) {x y cx cy : Int}
    {s : Rune} (hb : l.inBounds x y) (hc : l.inBounds cx cy)
    (hne : ¬ (cx = x ∧ cy = y)) (h : l.setTile x y s = some l') :
    l'.getTile cx cy = l.getTile cx cy := by
  rw [setTile_eq_some hwf hb] at h
  cases h
  have hs : l.slot x y ≠ l.slot cx cy := fun e => hne (by
    obtain ⟨a, b⟩ := slot_inj hwf hb hc e
    exact ⟨a.symm, b.symm⟩)
  obtain ⟨-, h0, -⟩ := slot_of_inBounds hwf hb
  obtain ⟨-, h0c, -⟩ := slot_of_inBounds hwf hc
  have hn : (l.slot x y).toNat ≠ (l.slot cx cy).toNat := by omega
  unfold Layer.getTile Layer.slot
  simp only []
  unfold Layer.slot at hn h0c
  rw [if_pos h0c, if_pos h0c]
  simp [List.getElem?_set, hn]

/-- The cell read after `setTile`, at any in-bounds coordinate. -/
theorem getTile_setTile {l l' : Layer} (hwf : l.wellFormed) {x y cx cy : Int}
    {s : Rune} (hb : l.inBounds x y) (hc : l.inBounds cx cy)
    (h : l.setTile x y s = some l') :
    l'.getTile cx cy = if cx = x ∧ cy = y then some s else l.getTile cx cy := by
  by_cases e : cx = x ∧ cy = y
  · rw [if_pos e, e.1, e.2]
    exact getTile_of_setTile h
  · rw [if_neg e]
    exact getTile_of_setTile_ne hwf hb hc e h

/-- An in-bounds read of a well-formed layer returns a tile. -/
theorem getTile_isSome {l : Layer} (hwf : l.wellFormed) {x y : Int}
    (hb : l.inBounds x y) : ∃ t, l.getTile x y = some t := by
  rw [getTile_eq_getElem? hwf hb]
  obtain ⟨-, -, hlt⟩ := slot_of_inBounds hwf hb
  exact ⟨l.Tiles[(l.slot x y).toNat], List.getElem?_eq_getElem hlt⟩

/-- After a write of `s`, any cell reads `s` or what it read before (any layer). -/
theorem getTile_setTile_or {l l' : Layer} {x y : Int} {s : Rune}
    (h : l.setTile x y s = some l') (cx cy : Int) :
    l'.getTile cx cy = some s ∨ l'.getTile cx cy = l.getTile cx cy := by
  unfold Layer.setTile at h
  split at h
  · rename_i hc
    cases h
    unfold Layer.getTile Layer.slot
    simp only []
    unfold Layer.slot at hc
    by_cases h0 : 0 ≤ wrap64 (cx + wrap64 (cy * l.Width))
    · rw [if_pos h0, if_pos h0, List.getElem?_set]
      split
      · rename_i e
        rw [if_pos (by omega)]
        exact Or.inl rfl
      · exact Or.inr rfl
    · rw [if_neg h0, if_neg h0]
      exact Or.inr rfl
  · cases h

/-! ## Loop rules -/

/-- Total-correctness rule for `forLoop`: an invariant that every iteration
re-establishes, without fault, holds at the end, and the loop returns. -/
theorem forLoop_total {σ : Type} (body : Int → σ → Option σ) (I : Int → σ → Prop)
    (b : Int)
    (hstep : ∀ v s, v < b → I v s → ∃ s', body v s = some s' ∧ I (v + 1) s') :
    ∀ (n : Nat) (v : Int) (s : σ), v + n = b → I v s →
      ∃ s', forLoop body n v s = some s' ∧ I b s' := by
  intro n
  induction n with
  | zero =>
    intro v s hv hI
    have e : v = b := by simpa using hv
    subst e
    exact ⟨s, rfl, hI⟩
  | succ n ih =>
    intro v s hv hI
    have hlt : v < b := by push_cast at hv; omega
    obtain ⟨s1, hb, hI1⟩ := hstep v s hlt hI
    obtain ⟨s2, hl, hI2⟩ := ih (v + 1) s1 (by push_cast at hv; omega) hI1
    refine ⟨s2, ?_, hI2⟩
    simp only [forLoop, hb]
    exact hl

/-- Partial-correctness rule for `forLoop`: an invariant kept by every iteration
that returns holds at the end of a loop that returns. -/
theorem forLoop_invariant {σ : Type} (body : Int → σ → Option σ) (I : Int → σ → Prop)
    (b : Int)
    (hstep : ∀ v s s', v < b → I v s → body v s = some s' → I (v + 1) s') :
    ∀ (n : Nat) (v : Int) (s s' : σ), v + n = b → I v s →
      forLoop body n v s = some s' → I b s' := by
  intro n
  induction n with
  | zero =>
    intro v s s' hv hI h
    have e : v = b := by simpa using hv
    subst e
    simp only [forLoop] at h
    cases h
    exact hI
  | succ n ih =>
    intro v s s' hv hI h
    have hlt : v < b := by push_cast at hv; omega
    simp only [forLoop] at h
    split at h
    · cases h
    · rename_i s1 hb
      exact ih (v + 1) s1 s' (by push_cast at hv; omega) (hstep v s s1 hlt hI hb) h

/-! ## Painting cells -/

theorem paintedFrom_of_empty (l : Layer) (s : Rune) {P : Int → Int → Prop}
    (h : ∀ cx cy, ¬ P cx cy) : l.paintedFrom l P s :=
  ⟨rfl, rfl, rfl, rfl, fun cx cy _ => ⟨fun hp => absurd hp (h cx cy), fun _ => rfl⟩⟩

theorem paintedFrom_wellFormed {l l' : Layer} {P : Int → Int → Prop} {s : Rune}
    (hwf : l.wellFormed) (h : l'.paintedFrom l P s) : l'.wellFormed := by
  obtain ⟨-, hW, hH, hlen, -⟩ := h
  unfold Layer.wellFormed at *
  rw [hW, hH, hlen]
  exact hwf

theorem paintedFrom_inBounds {l l' : Layer} {P : Int → Int → Prop} {s : Rune}
    (h : l'.paintedFrom l P s) (cx cy : Int) : l'.inBounds cx cy ↔ l.inBounds cx cy := by
  obtain ⟨-, hW, hH, -, -⟩ := h
  unfold Layer.inBounds
  rw [hW, hH]

theorem paintedFrom_congr {l l' : Layer} {P Q : Int → Int → Prop} {s : Rune}
    (hPQ : ∀ cx cy, l.inBounds cx cy → (P cx cy ↔ Q cx cy))
    (h : l'.paintedFrom l P s) : l'.paintedFrom l Q s := by
  obtain ⟨hN, hW, hH, hlen, hc⟩ := h
  refine ⟨hN, hW, hH, hlen, fun cx cy hb => ⟨fun hq => ?_, fun hq => ?_⟩⟩
  · exact (hc cx cy hb).1 ((hPQ cx cy hb).2 hq)
  · exact (hc cx cy hb).2 (fun hp => hq ((hPQ cx cy hb).1 hp))

theorem paintedFrom_trans {l l1 l2 : Layer} {P Q : Int → Int → Prop} {s : Rune}
    (h1 : l1.paintedFrom l P s) (h2 : l2.paintedFrom l1 Q s) :
    l2.paintedFrom l (fun cx cy => P cx cy ∨ Q cx cy) s := by
  have hib := paintedFrom_inBounds h1
  obtain ⟨hN, hW, hH, hlen, hc⟩ := h1
  obtain ⟨hN2, hW2, hH2, hlen2, hc2⟩ := h2
  refine ⟨hN2.trans hN, hW2.trans hW, hH2.trans hH, hlen2.trans hlen, ?_⟩
  intro cx cy hb
  have hb1 : l1.inBounds cx cy := (hib cx cy).2 hb
  constructor
  · intro hpq
    by_cases hq : Q cx cy
    · exact (hc2 cx cy hb1).1 hq
    · rw [(hc2 cx cy hb1).2 hq]
      rcases hpq with hp | hq'
      · exact (hc cx cy hb).1 hp
      · exact absurd hq' hq
  · intro hpq
    rw [(hc2 cx cy hb1).2 (fun hq => hpq (Or.inr hq))]
    exact (hc cx cy hb).2 (fun hp => hpq (Or.inl hp))

theorem paintedFrom_setTile {l l' : Layer} (hwf : l.wellFormed) {x y : Int} {s : Rune}
    (hb : l.inBounds x y) (h : l.setTile x y s = some l') :
    l'.paintedFrom l (fun cx cy => cx = x ∧ cy = y) s := by
  obtain ⟨hN, hW, hH, hlen⟩ := setTile_fields h
  refine ⟨hN, hW, hH, hlen, fun cx cy hc => ⟨fun hp => ?_, fun hp => ?_⟩⟩
  · rw [hp.1, hp.2]
    exact getTile_of_setTile h
  · exact getTile_of_setTile_ne hwf hb hc hp h

/-- One row of a painting loop nest: `x` over `[x0, x0+nx)` in row `y`, writing
`s` where `g x` holds. -/
theorem paintRow_total (s : Rune) (g : Int → Bool) (y x0 : Int) (nx : Nat) (l : Layer)
    (hwf : l.wellFormed) (hy0 : 0 ≤ y) (hy1 : y < l.Height) (hx0 : 0 ≤ x0)
    (hx1 : x0 + nx ≤ l.Width) :
    ∃ l', forLoop (fun x l2 => if g x = true then l2.setTile x y s else some l2) nx x0 l
        = some l' ∧
      l'.paintedFrom l (fun cx cy => cy = y ∧ x0 ≤ cx ∧ cx < x0 + nx ∧ g cx = true) s := by
  have key := forLoop_total
    (fun x l2 => if g x = true then l2.setTile x y s else some l2)
    (fun v l2 => x0 ≤ v ∧
      l2.paintedFrom l (fun cx cy => cy = y ∧ x0 ≤ cx ∧ cx < v ∧ g cx = true) s)
    (x0 + nx) ?_ nx x0 l rfl
    ⟨le_refl _, paintedFrom_of_empty l s (fun cx cy h => by omega)⟩
  · obtain ⟨l', h1, -, h2⟩ := key
    exact ⟨l', h1, h2⟩
  · intro v l2 hv ⟨hxv, hp⟩
    have hwf2 := paintedFrom_wellFormed hwf hp
    by_cases hg : g v = true
    · have hb : l.inBounds v y := ⟨by omega, by omega, hy0, hy1⟩
      have hb2 : l2.inBounds v y := (paintedFrom_inBounds hp v y).2 hb
      have hset := setTile_eq_some hwf2 hb2 s
      refine ⟨_, by simp only [hg, if_true]; exact hset, by omega, ?_⟩
      have h3 := paintedFrom_trans hp (paintedFrom_setTile hwf2 hb2 hset)
      refine paintedFrom_congr (fun cx cy _ => ?_) h3
      constructor
      · rintro (⟨a, b, c, d⟩ | ⟨a, b⟩)
        · exact ⟨a, b, by omega, d⟩
        · subst a
          exact ⟨b, hxv, by omega, hg⟩
      · rintro ⟨a, b, c, d⟩
        by_cases e : cx = v
        · exact Or.inr ⟨e, a⟩
        · exact Or.inl ⟨a, b, by omega, d⟩
    · refine ⟨l2, by simp only [hg]; rfl, by omega, ?_⟩
      refine paintedFrom_congr (fun cx cy _ => ?_) hp
      constructor
      · rintro ⟨a, b, c, d⟩
        exact ⟨a, b, by omega, d⟩
      · rintro ⟨a, b, c, d⟩
        refine ⟨a, b, ?_, d⟩
        by_contra hcon
        have e : cx = v := by omega
        subst e
        exact hg d

/-- A painting loop nest: `y` over `[y0, y0+ny)` outside, `x` over `[x0, x0+nx)`
inside, writing `s` where `g x y` holds, the region lying inside the layer. -/
theorem paintNest_total (s : Rune) (g : Int → Int → Bool) (x0 y0 : Int) (nx ny : Nat)
    (l : Layer) (body : Int → Layer → Option Layer)
    (hbody : ∀ y l1, l1.Width = l.Width → body y l1 =
      forLoop (fun x l2 => if g x y = true then l2.setTile x y s else some l2) nx x0 l1)
    (hwf : l.wellFormed) (hx0 : 0 ≤ x0) (hx1 : x0 + nx ≤ l.Width)
    (hy0 : 0 ≤ y0) (hy1 : y0 + ny ≤ l.Height) :
    ∃ l', forLoop body ny y0 l = some l' ∧
      l'.paintedFrom l
        (fun cx cy => x0 ≤ cx ∧ cx < x0 + nx ∧ y0 ≤ cy ∧ cy < y0 + ny ∧ g cx cy = true) s := by
  have key := forLoop_total body
    (fun v l1 => y0 ≤ v ∧
      l1.paintedFrom l
        (fun cx cy => x0 ≤ cx ∧ cx < x0 + nx ∧ y0 ≤ cy ∧ cy < v ∧ g cx cy = true) s)
    (y0 + ny) ?_ ny y0 l rfl
    ⟨le_refl _, paintedFrom_of_empty l s (fun cx cy h => by omega)⟩
  · obtain ⟨l', h1, -, h2⟩ := key
    exact ⟨l', h1, h2⟩
  · intro v l1 hv ⟨hyv, hp⟩
    have hwf1 := paintedFrom_wellFormed hwf hp
    have hW1 : l1.Width = l.Width := hp.2.1
    have hH1 : l1.Height = l.Height := hp.2.2.1
    obtain ⟨l2, hrow, hp2⟩ := paintRow_total s (fun x => g x v) v x0 nx l1 hwf1
      (by omega) (by omega) hx0 (by omega)
    refine ⟨l2, by rw [hbody v l1 hW1]; exact hrow, by omega, ?_⟩
    refine paintedFrom_congr (fun cx cy _ => ?_) (paintedFrom_trans hp hp2)
    constructor
    · rintro (⟨a, b, c, d, e⟩ | ⟨a, b, c, d⟩)
      · exact ⟨a, b, c, by omega, e⟩
      · subst a
        exact ⟨b, c, hyv, by omega, d⟩
    · rintro ⟨a, b, c, d, e⟩
      by_cases h : cy = v
      · subst h
        exact Or.inr ⟨rfl, a, b, e⟩
      · exact Or.inl ⟨a, b, c, by omega, e⟩

/-! ## fill and newLayer -/

/-- On a layer with `len(Tiles) = Width*Height`, `fill` returns and every
in-bounds cell reads the fill symbol. -/
theorem fill_total (l : Layer) (s : Rune) (hwf : l.wellFormed) :
    ∃ l', l.fill s = some l' ∧ l'.paintedFrom l (fun _ _ => True) s := by
  have hW := hwf.1
  have hH := hwf.2.1
  obtain ⟨l', h1, h2⟩ := paintNest_total s (fun _ _ => true) 0 0 l.Width.toNat
    l.Height.toNat l
    (fun y l1 => forLoop (fun x l2 => l2.setTile x y s) (l1.Width - 0).toNat 0 l1)
    (fun y l1 hW1 => by simp [hW1]) hwf (le_refl _) (by omega) (le_refl _) (by omega)
  refine ⟨l', ?_, paintedFrom_congr (fun cx cy hb => ?_) h2⟩
  · unfold Layer.fill
    rw [sub_zero]
    exact h1
  · unfold Layer.inBounds at hb
    constructor
    · intro _
      trivial
    · intro _
      refine ⟨by omega, by omega, by omega, by omega, rfl⟩

/-- On any layer, a `fill` that returns leaves every in-bounds cell reading the
fill symbol. -/
theorem fill_cells (l l' : Layer) (s : Rune) (h : l.fill s = some l') :
    l'.Width = l.Width ∧ l'.Height = l.Height ∧
      ∀ cx cy, l.inBounds cx cy → l'.getTile cx cy = some s := by
  unfold Layer.fill at h
  have key := forLoop_invariant
    (fun y (l1 : Layer) =>
      forLoop (fun x (l2 : Layer) => l2.setTile x y s) (l1.Width - 0).toNat 0 l1)
    (fun v l1 => l1.Width = l.Width ∧ l1.Height = l.Height ∧
      ∀ cx cy, l.inBounds cx cy → cy < v → l1.getTile cx cy = some s)
    (0 + ((l.Height - 0).toNat : Int)) ?_ (l.Height - 0).toNat 0 l l' rfl
    ⟨rfl, rfl, fun cx cy hb hc => by unfold Layer.inBounds at hb; omega⟩ h
  · obtain ⟨hW, hH, hc⟩ := key
    refine ⟨hW, hH, fun cx cy hb => hc cx cy hb ?_⟩
    unfold Layer.inBounds at hb
    omega
  · intro v l1 l2 _ ⟨hW1, hH1, hc1⟩ hrow
    have row := forLoop_invariant (fun x (l2 : Layer) => l2.setTile x v s)
      (fun u l3 => l3.Width = l.Width ∧ l3.Height = l.Height ∧
        ∀ cx cy, l.inBounds cx cy → (cy < v ∨ (cy = v ∧ cx < u)) →
          l3.getTile cx cy = some s)
      (0 + ((l1.Width - 0).toNat : Int)) ?_ (l1.Width - 0).toNat 0 l1 l2 rfl
      ⟨hW1, hH1, fun cx cy hb hc => by
        rcases hc with hc | hc
        · exact hc1 cx cy hb hc
        · unfold Layer.inBounds at hb; omega⟩ hrow
    · obtain ⟨hW2, hH2, hc2⟩ := row
      refine ⟨hW2, hH2, fun cx cy hb hc => hc2 cx cy hb ?_⟩
      unfold Layer.inBounds at hb
      rw [hW1]
      omega
    · intro u l3 l4 _ ⟨hW3, hH3, hc3⟩ hset
      obtain ⟨-, hW4, hH4, -⟩ := setTile_fields hset
      refine ⟨hW4.trans hW3, hH4.trans hH3, fun cx cy hb hc => ?_⟩
      by_cases e : cx = u ∧ cy = v
      · rw [e.1, e.2]
        exact getTile_of_setTile hset
      · rcases getTile_setTile_or hset cx cy with h1 | h1
        · exact h1
        · rw [h1]
          exact hc3 cx cy hb (by omega)

/-- A well-formed layer all of whose in-bounds cells read `s` has `Tiles` equal
to `len(Tiles)` copies of `s`: every slot is the slot of an in-bounds cell. -/
theorem tiles_eq_replicate {l : Layer} (hwf : l.wellFormed) {s : Rune}
    (h : ∀ cx cy, l.inBounds cx cy → l.getTile cx cy = some s) :
    l.Tiles = List.replicate l.Tiles.length s := by
  rw [List.eq_replicate_iff]
  refine ⟨rfl, fun b hb => ?_⟩
  obtain ⟨i, hi, rfl⟩ := List.mem_iff_getElem.1 hb
  obtain ⟨hW, hH, hWi, hHi, hWHi, hlen⟩ := hwf
  have hiW : (i : Int) < l.Width * l.Height := by omega
  have hWpos : 0 < l.Width := by
    by_contra hcon
    have h0 : l.Width = 0 := by omega
    rw [h0, zero_mul] at hiW
    omega
  have hib : l.inBounds ((i : Int) % l.Width) ((i : Int) / l.Width) := by
    refine ⟨Int.emod_nonneg _ (by omega), Int.emod_lt_of_pos _ hWpos,
      Int.ediv_nonneg (by omega) hW, ?_⟩
    exact Int.ediv_lt_of_lt_mul hWpos (by rw [mul_comm]; exact hiW)
  have hwf' : l.wellFormed := ⟨hW, hH, hWi, hHi, hWHi, hlen⟩
  have hg := h _ _ hib
  rw [getTile_eq_getElem? hwf' hib, (slot_of_inBounds hwf' hib).1] at hg
  have e : (i : Int) % l.Width + (i : Int) / l.Width * l.Width = i := by
    rw [mul_comm]
    exact Int.emod_add_ediv _ _
  rw [e, Int.toNat_ofNat, List.getElem?_eq_getElem hi] at hg
  exact Option.some.inj hg

/-- For non-negative dimensions whose product is a Go `int`, `newLayer` returns a
well-formed layer of the given name and size, all of whose cells are `nothing`. -/
theorem newLayer_total (name : String) (w h : Int) (hw : 0 ≤ w) (hh : 0 ≤ h)
    (hwi : isInt64 w) (hhi : isInt64 h) (hwh : isInt64 (w * h)) :
    ∃ l, newLayer name w h = some l ∧ l.Name = name ∧ l.Width = w ∧ l.Height = h ∧
      l.wellFormed ∧ l.Tiles = List.replicate (w * h).toNat nothing := by
  have hnn : 0 ≤ w * h := Int.mul_nonneg hw hh
  have hwf0 : (⟨name, List.replicate (w * h).toNat 0, w, h⟩ : Layer).wellFormed := by
    refine ⟨hw, hh, hwi, hhi, hwh, ?_⟩
    simp only [List.length_replicate]
    omega
  obtain ⟨l, hfill, hp⟩ := fill_total _ nothing hwf0
  have hwf := paintedFrom_wellFormed hwf0 hp
  obtain ⟨hN, hW, hH, hlen, hc⟩ := hp
  refine ⟨l, ?_, hN, hW, hH, hwf, ?_⟩
  · unfold newLayer
    rw [wrap64_of_isInt64 hwh, if_neg (by omega)]
    exact hfill
  · have hall : ∀ cx cy, l.inBounds cx cy → l.getTile cx cy = some nothing := by
      intro cx cy hb
      have hb0 : (⟨name, List.replicate (w * h).toNat 0, w, h⟩ : Layer).inBounds cx cy := by
        unfold Layer.inBounds at *
        rw [hW, hH] at hb
        exact hb
      exact (hc cx cy hb0).1 trivial
    have e := tiles_eq_replicate hwf hall
    rw [hlen] at e
    simpa using e

/-! ## The layer loop of Print -/

/-- The layer loop, entered at layer number `index` with the layers `ls` still to
scan, all of which have a tile at `(x, y)`: it prints the tile of the first
layer of `ls` that is the last layer or holds a tile other than `nothing`. -/
theorem printCellFrom_spec (total : Nat) (x y : Int) :
    ∀ (ls : List Layer) (index : Nat), index + ls.length = total → ls ≠ [] →
      (∀ l ∈ ls, ∃ t, l.getTile x y = some t) →
      ∃ (i : Nat) (l : Layer) (t : Rune), ls[i]? = some l ∧ l.getTile x y = some t ∧
        printCellFrom total x y index ls = some (some t) ∧
        (∀ (j : Nat) (l' : Layer), j < i → ls[j]? = some l' →
          l'.getTile x y = some nothing) ∧
        (t ≠ nothing ∨ i + 1 = ls.length) := by
  intro ls
  induction ls with
  | nil => intro index _ hne; exact absurd rfl hne
  | cons a rest ih =>
    intro index hlen _ hall
    obtain ⟨t, ht⟩ := hall a (List.mem_cons_self _ _)
    simp only [List.length_cons] at hlen
    by_cases hc : (index : Int) = (total : Int) - 1 ∨ t ≠ nothing
    · refine ⟨0, a, t, List.getElem?_cons_zero, ht, ?_,
        fun j l' hj => absurd hj (Nat.not_lt_zero j), ?_⟩
      · simp only [printCellFrom, ht]
        rw [if_pos hc]
      · rcases hc with hc | hc
        · right
          simp only [List.length_cons]
          omega
        · exact Or.inl hc
    · have hc1 : ¬ (index : Int) = (total : Int) - 1 := fun h => hc (Or.inl h)
      have hc2 : t = nothing := by
        by_contra h
        exact hc (Or.inr h)
      have hrest : rest ≠ [] := by
        intro e
        rw [e] at hlen
        simp only [List.length_nil] at hlen
        omega
      obtain ⟨i, l, t', hi, hl, hp, hbelow, hlast⟩ := ih (index + 1) (by omega) hrest
        (fun l hl => hall l (List.mem_cons_of_mem _ hl))
      refine ⟨i + 1, l, t', by simpa using hi, hl, ?_, ?_, ?_⟩
      · simp only [printCellFrom, ht]
        rw [if_neg hc]
        exact hp
      · intro j l' hj hj'
        cases j with
        | zero =>
          simp only [List.getElem?_cons_zero, Option.some.injEq] at hj'
          rw [← hj', ht, hc2]
        | succ j =>
          simp only [List.getElem?_cons_succ] at hj'
          exact hbelow j l' (by omega) hj'
      · rcases hlast with h | h
        · exact Or.inl h
        · right
          simp only [List.length_cons]
          omega

theorem map_layers_have_tile {m : Map} (hwf : m.wellFormed) {x y : Int}
    (hb : m.inBounds x y) : ∀ l ∈ m.Layers, ∃ t, l.getTile x y = some t := by
  intro l hl
  obtain ⟨hwfl, hW, hH⟩ := hwf l hl
  apply getTile_isSome hwfl
  unfold Layer.inBounds
  rw [hW, hH]
  exact hb

/-- The tile printed for a cell of a well-formed map with at least one layer. -/
theorem printCell_spec {m : Map} (hne : m.Layers ≠ []) (hwf : m.wellFormed) {x y : Int}
    (hb : m.inBounds x y) :
    ∃ (i : Nat) (l : Layer) (t : Rune), m.Layers[i]? = some l ∧
      l.getTile x y = some t ∧ m.printCell x y = some (some t) ∧
      (∀ (j : Nat) (l' : Layer), j < i → m.Layers[j]? = some l' →
        l'.getTile x y = some nothing) ∧
      (t ≠ nothing ∨ i + 1 = m.Layers.length) :=
  printCellFrom_spec m.Layers.length x y m.Layers 0 (by omega) hne
    (map_layers_have_tile hwf hb)

/-! ## Layers of a map -/

theorem fill_name (l l' : Layer) (s : Rune) (h : l.fill s = some l') :
    l'.Name = l.Name := by
  unfold Layer.fill at h
  refine forLoop_invariant
    (fun y (l1 : Layer) =>
      forLoop (fun x (l2 : Layer) => l2.setTile x y s) (l1.Width - 0).toNat 0 l1)
    (fun _ l1 => l1.Name = l.Name) (0 + ((l.Height - 0).toNat : Int)) ?_
    (l.Height - 0).toNat 0 l l' rfl rfl h
  intro v l1 l2 _ hN hrow
  refine forLoop_invariant (fun x (l2 : Layer) => l2.setTile x v s)
    (fun _ l3 => l3.Name = l.Name) (0 + ((l1.Width - 0).toNat : Int)) ?_
    (l1.Width - 0).toNat 0 l1 l2 rfl hN hrow
  intro u l3 l4 _ hN3 hset
  exact (setTile_fields hset).1.trans hN3

/-- Whatever the arguments, a `newLayer` that returns gives a layer with the
requested name, width and height. -/
theorem newLayer_fields {name : String} {w h : Int} {l : Layer}
    (hnew : newLayer name w h = some l) : l.Name = name ∧ l.Width = w ∧ l.Height = h := by
  unfold newLayer at hnew
  split at hnew
  · cases hnew
  · have h1 := fill_cells _ l nothing hnew
    exact ⟨fill_name _ l nothing hnew, h1.1, h1.2.1⟩

theorem layerIndex_some {name : String} :
    ∀ {ls : List Layer} {i : Nat}, layerIndex name ls = some i →
      ∃ l, ls[i]? = some l ∧ l.Name = name ∧
        ∀ (j : Nat) (l' : Layer), j < i → ls[j]? = some l' → l'.Name ≠ name := by
  intro ls
  induction ls with
  | nil => intro i h; cases h
  | cons a rest ih =>
    intro i h
    simp only [layerIndex] at h
    split at h
    · rename_i ha
      cases h
      exact ⟨a, List.getElem?_cons_zero, ha, fun j l' hj => absurd hj (Nat.not_lt_zero j)⟩
    · rename_i ha
      split at h
      · cases h
      · rename_i k hk
        cases h
        obtain ⟨l, hl, hn, hbelow⟩ := ih hk
        refine ⟨l, by simpa using hl, hn, ?_⟩
        intro j l' hj hj'
        cases j with
        | zero =>
          simp only [List.getElem?_cons_zero, Option.some.injEq] at hj'
          rw [← hj']
          exact ha
        | succ j =>
          simp only [List.getElem?_cons_succ] at hj'
          exact hbelow j l' (by omega) hj'

theorem layerIndex_none {name : String} :
    ∀ {ls : List Layer}, layerIndex name ls = none ↔ ∀ l ∈ ls, l.Name ≠ name := by
  intro ls
  induction ls with
  | nil => simp [layerIndex]
  | cons a rest ih =>
    simp only [layerIndex, List.mem_cons, forall_eq_or_imp]
    by_cases ha : a.Name = name
    · simp [ha]
    · rw [if_neg ha]
      cases hr : layerIndex name rest with
      | none => simpa [ha] using ih.1 hr
      | some k =>
        simp only [reduceCtorEq, false_iff, not_and]
        intro _ hall
        rw [ih.2 hall] at hr
        cases hr

theorem layerIndex_append_new {name : String} {nl : Layer} (hn : nl.Name = name) :
    ∀ {ls : List Layer}, (∀ l ∈ ls, l.Name ≠ name) →
      layerIndex name (ls ++ [nl]) = some ls.length := by
  intro ls
  induction ls with
  | nil => intro _; simp [layerIndex, hn]
  | cons a rest ih =>
    intro hall
    have ha : a.Name ≠ name := hall a (List.mem_cons_self _ _)
    have hr := ih (fun l hl => hall l (List.mem_cons_of_mem _ hl))
    show layerIndex name (a :: (rest ++ [nl])) = some (rest.length + 1)
    simp only [layerIndex, if_neg ha, hr]

/-- What `Map.Layer` returns, in both of its cases, whenever it returns. -/
theorem map_layer_cases {m m1 : Map} {name : String} {i : Nat}
    (h : m.Layer name = some (m1, i)) :
    (layerIndex name m.Layers = some i ∧ m1 = m) ∨
    (layerIndex name m.Layers = none ∧ i = m.Layers.length ∧
      ∃ nl, newLayer name m.Width m.Height = some nl ∧
        m1 = { m with Layers := m.Layers ++ [nl] }) := by
  unfold Map.Layer at h
  split at h
  · rename_i k hk
    cases h
    exact Or.inl ⟨hk, rfl⟩
  · rename_i hk
    split at h
    · cases h
    · rename_i nl hnl
      cases h
      refine Or.inr ⟨hk, ?_, nl, hnl, rfl⟩
      simp

/-- Every layer of the map has width `w` and height `h`, as the map itself. -/
theorem map_layer_dims {m m1 : Map} {name : String} {i : Nat} {w h : Int}
    (hm : m.Width = w ∧ m.Height = h ∧ ∀ l ∈ m.Layers, l.Width = w ∧ l.Height = h)
    (hcall : m.Layer name = some (m1, i)) :
    m1.Width = w ∧ m1.Height = h ∧ ∀ l ∈ m1.Layers, l.Width = w ∧ l.Height = h := by
  rcases map_layer_cases hcall with ⟨-, rfl⟩ | ⟨-, -, nl, hnl, rfl⟩
  · exact hm
  · obtain ⟨hW, hH, hall⟩ := hm
    refine ⟨hW, hH, fun l hl => ?_⟩
    simp only [List.mem_append, List.mem_singleton] at hl
    rcases hl with hl | rfl
    · exact hall l hl
    · have hf := newLayer_fields hnl
      exact ⟨hf.2.1.trans hW, hf.2.2.trans hH⟩

theorem layerCalls_dims {w h : Int} :
    ∀ (names : List String) (m m1 : Map),
      (m.Width = w ∧ m.Height = h ∧ ∀ l ∈ m.Layers, l.Width = w ∧ l.Height = h) →
      layerCalls m names = some m1 →
      m1.Width = w ∧ m1.Height = h ∧ ∀ l ∈ m1.Layers, l.Width = w ∧ l.Height = h := by
  intro names
  induction names with
  | nil =>
    intro m m1 hm h
    simp only [layerCalls] at h
    cases h
    exact hm
  | cons name rest ih =>
    intro m m1 hm h
    simp only [layerCalls] at h
    split at h
    · cases h
    · rename_i m2 i hcall
      exact ih m2 m1 (map_layer_dims hm hcall) h

/-- With representable non-negative dimensions, `Map.Layer` returns. -/
theorem map_layer_total (m : Map) (name : String) (hw : 0 ≤ m.Width) (hh : 0 ≤ m.Height)
    (hwi : isInt64 m.Width) (hhi : isInt64 m.Height) (hwh : isInt64 (m.Width * m.Height)) :
    ∃ m1 i, m.Layer name = some (m1, i) := by
  unfold Map.Layer
  cases hk : layerIndex name m.Layers with
  | some k => exact ⟨m, k, rfl⟩
  | none =>
    obtain ⟨nl, hnl, -⟩ := newLayer_total name m.Width m.Height hw hh hwi hhi hwh
    simp only [hnl]
    exact ⟨_, _, rfl⟩

theorem layerCalls_total {w h : Int} (hw : 0 ≤ w) (hh : 0 ≤ h)
    (hwi : isInt64 w) (hhi : isInt64 h) (hwh : isInt64 (w * h)) :
    ∀ (names : List String) (m : Map),
      (m.Width = w ∧ m.Height = h ∧ ∀ l ∈ m.Layers, l.Width = w ∧ l.Height = h) →
      ∃ m1, layerCalls m names = some m1 := by
  intro names
  induction names with
  | nil => intro m _; exact ⟨m, rfl⟩
  | cons name rest ih =>
    intro m hm
    obtain ⟨m2, i, hcall⟩ := map_layer_total m name (by rw [hm.1]; exact hw)
      (by rw [hm.2.1]; exact hh) (by rw [hm.1]; exact hwi) (by rw [hm.2.1]; exact hhi)
      (by rw [hm.1, hm.2.1]; exact hwh)
    obtain ⟨m1, h1⟩ := ih m2 (map_layer_dims hm hcall)
    refine ⟨m1, ?_⟩
    simp only [layerCalls, hcall]
    exact h1

theorem newMap_dims {w h : Int} {m : Map} (hnew : NewMap w h = some m) :
    m.Width = w ∧ m.Height = h ∧ ∀ l ∈ m.Layers, l.Width = w ∧ l.Height = h := by
  unfold NewMap at hnew
  split at hnew
  · cases hnew
  · rename_i g hg
    split at hnew
    · cases hnew
    · rename_i s hs
      cases hnew
      refine ⟨rfl, rfl, fun l hl => ?_⟩
      simp only [List.mem_cons, List.mem_singleton, List.not_mem_nil, or_false] at hl
      rcases hl with rfl | rfl
      · exact (newLayer_fields hg).2
      · exact (newLayer_fields hs).2

theorem newMap_total {w h : Int} (hw : 0 ≤ w) (hh : 0 ≤ h)
    (hwi : isInt64 w) (hhi : isInt64 h) (hwh : isInt64 (w * h)) :
    ∃ m, NewMap w h = some m := by
  obtain ⟨g, hg, -⟩ := newLayer_total "Ground" w h hw hh hwi hhi hwh
  obtain ⟨s, hs, -⟩ := newLayer_total "Structures" w h hw hh hwi hhi hwh
  unfold NewMap
  simp only [hg, hs]
  exact ⟨_, rfl⟩

/-! ## rectangle -/

/-- A loop whose body changes nothing returns its initial state. -/
theorem forLoop_skip {σ : Type} (body : Int → σ → Option σ)
    (hbody : ∀ v s, body v s = some s) :
    ∀ (n : Nat) (v : Int) (s : σ), forLoop body n v s = some s := by
  intro n
  induction n with
  | zero => intro v s; rfl
  | succ n ih =>
    intro v s
    simp only [forLoop, hbody]
    exact ih (v + 1) s

/-- Inside a layer the loop bounds of `rectangle` do not overflow. -/
theorem rect_bounds {l : Layer} (hwf : l.wellFormed) {r : rect} (hr : l.contains r) :
    wrap64 (r.x + r.w) = r.x + r.w ∧ wrap64 (r.y + r.h) = r.y + r.h := by
  obtain ⟨-, -, hWi, hHi, -, -⟩ := hwf
  obtain ⟨hx, hy, hwi, hhi, hxw, hyh⟩ := hr
  unfold isInt64 at *
  constructor <;> apply wrap64_of_isInt64 <;> unfold isInt64 <;> omega

/-- On a rect with positive extent inside a layer, the guard of `rectangle` is
`filled` or "on the border". -/
theorem rectangleGuard_iff {l : Layer} (hwf : l.wellFormed) {r : rect}
    (hr : l.contains r) (hw : 0 < r.w) (hh : 0 < r.h) (filled : Bool) (x y : Int) :
    rectangleGuard r filled x y = true ↔ (filled = true ∨ r.onBorder x y) := by
  obtain ⟨e1, e2⟩ := rect_bounds hwf hr
  obtain ⟨-, -, hWi, hHi, -, -⟩ := hwf
  obtain ⟨hx, hy, hwi, hhi, hxw, hyh⟩ := hr
  have e3 : wrap64 (r.x + r.w - 1) = r.x + r.w - 1 := by
    apply wrap64_of_isInt64
    unfold isInt64 at *
    omega
  have e4 : wrap64 (r.y + r.h - 1) = r.y + r.h - 1 := by
    apply wrap64_of_isInt64
    unfold isInt64 at *
    omega
  unfold rectangleGuard rect.onBorder
  rw [e1, e2, e3, e4]
  simp only [Bool.or_eq_true, beq_iff_eq]
  tauto

/-- The effect of `rectangle` on a rect lying inside a well-formed layer: it
returns, and exactly the cells of the rect that pass the guard are set. -/
theorem rectangle_total (l : Layer) (r : rect) (s : Rune) (filled : Bool)
    (hwf : l.wellFormed) (hr : l.contains r) :
    ∃ l', l.rectangle r s filled = some l' ∧
      l'.paintedFrom l
        (fun cx cy => r.covers cx cy ∧ (filled = true ∨ r.onBorder cx cy)) s := by
  obtain ⟨e1, e2⟩ := rect_bounds hwf hr
  have hr' := hr
  obtain ⟨hx, hy, hwi, hhi, hxw, hyh⟩ := hr
  unfold Layer.rectangle rectangleWith
  rw [e1, e2]
  by_cases hpos : 0 < r.w ∧ 0 < r.h
  · obtain ⟨hw, hh⟩ := hpos
    obtain ⟨l', h1, h2⟩ := paintNest_total s (rectangleGuard r filled) r.x r.y
      (r.x + r.w - r.x).toNat (r.y + r.h - r.y).toNat l
      (fun y s1 => forLoop
        (fun x s2 => if rectangleGuard r filled x y = true then s2.setTile x y s else some s2)
        (r.x + r.w - r.x).toNat r.x s1)
      (fun _ _ _ => rfl) hwf hx (by omega) hy (by omega)
    refine ⟨l', h1, paintedFrom_congr (fun cx cy _ => ?_) h2⟩
    rw [rectangleGuard_iff hwf hr' hw hh]
    unfold rect.covers
    constructor
    · rintro ⟨a, b, c, d, e⟩
      exact ⟨⟨a, by omega, c, by omega⟩, e⟩
    · rintro ⟨⟨a, b, c, d⟩, e⟩
      exact ⟨a, by omega, c, by omega, e⟩
  · have hempty : ∀ cx cy, ¬ (r.covers cx cy ∧ (filled = true ∨ r.onBorder cx cy)) := by
      intro cx cy h
      unfold rect.covers at h
      omega
    refine ⟨l, ?_, paintedFrom_of_empty l s hempty⟩
    by_cases hh : 0 < r.h
    · have hw0 : (r.x + r.w - r.x).toNat = 0 := by omega
      rw [hw0]
      exact forLoop_skip _ (fun _ _ => rfl) _ _ _
    · have hh0 : (r.y + r.h - r.y).toNat = 0 := by omega
      rw [hh0]
      rfl

/-! ## The cells that rectangle writes -/

/-- One row of the recording loop nest: the coordinates appended for row `y`
are those `(x, y)`, `x` in `[x0, x0+nx)`, that pass `g`, each once. -/
theorem traceRow_total (g : Int → Bool) (y x0 : Int) (nx : Nat) (acc0 : List (Int × Int)) :
    ∃ row : List (Int × Int),
      forLoop (fun x acc => if g x = true then some (acc ++ [(x, y)]) else some acc)
        nx x0 acc0 = some (acc0 ++ row) ∧
      row.Nodup ∧
      ∀ p : Int × Int, p ∈ row ↔ (p.2 = y ∧ x0 ≤ p.1 ∧ p.1 < x0 + nx ∧ g p.1 = true) := by
  have key := forLoop_total
    (fun x (acc : List (Int × Int)) =>
      if g x = true then some (acc ++ [(x, y)]) else some acc)
    (fun v acc => x0 ≤ v ∧ ∃ row : List (Int × Int), acc = acc0 ++ row ∧ row.Nodup ∧
      ∀ p : Int × Int, p ∈ row ↔ (p.2 = y ∧ x0 ≤ p.1 ∧ p.1 < v ∧ g p.1 = true))
    (x0 + nx) ?_ nx x0 acc0 rfl
    ⟨le_refl _, [], by simp, List.nodup_nil, fun p => by
      simp only [List.not_mem_nil, false_iff]
      omega⟩
  · obtain ⟨acc, h1, -, row, rfl, h2, h3⟩ := key
    exact ⟨row, h1, h2, h3⟩
  · rintro v acc hv ⟨hxv, row, rfl, hnd, hmem⟩
    by_cases hg : g v = true
    · refine ⟨acc0 ++ row ++ [(v, y)], by simp only [hg, if_true], by omega,
        row ++ [(v, y)], by simp, ?_, ?_⟩
      · rw [List.nodup_append]
        refine ⟨hnd, List.nodup_singleton _, ?_⟩
        intro p hp hp'
        rw [List.mem_singleton] at hp'
        subst hp'
        have := (hmem _).1 hp
        simp only at this
        omega
      · intro p
        rw [List.mem_append, List.mem_singleton, hmem]
        constructor
        · rintro (⟨a, b, c, d⟩ | rfl)
          · exact ⟨a, b, by omega, d⟩
          · exact ⟨rfl, hxv, by simp, hg⟩
        · rintro ⟨a, b, c, d⟩
          by_cases e : p.1 = v
          · right
            exact Prod.ext e a
          · left
            exact ⟨a, b, by omega, d⟩
    · refine ⟨acc0 ++ row, by simp only [hg]; rfl, by omega, row, rfl, hnd, ?_⟩
      intro p
      rw [hmem]
      constructor
      · rintro ⟨a, b, c, d⟩
        exact ⟨a, b, by omega, d⟩
      · rintro ⟨a, b, c, d⟩
        refine ⟨a, b, ?_, d⟩
        by_contra hcon
        have e : p.1 = v := by omega
        rw [e] at d
        exact hg d

/-- The recording loop nest: the coordinates recorded are those of the region
`[x0, x0+nx) x [y0, y0+ny)` that pass `g`, each once. -/
theorem traceNest_total (g : Int → Int → Bool) (x0 y0 : Int) (nx ny : Nat) :
    ∃ tr : List (Int × Int),
      forLoop (fun y acc =>
          forLoop (fun x acc2 => if g x y = true then some (acc2 ++ [(x, y)]) else some acc2)
            nx x0 acc)
        ny y0 [] = some tr ∧
      tr.Nodup ∧
      ∀ p : Int × Int, p ∈ tr ↔
        (x0 ≤ p.1 ∧ p.1 < x0 + nx ∧ y0 ≤ p.2 ∧ p.2 < y0 + ny ∧ g p.1 p.2 = true) := by
  have key := forLoop_total
    (fun y (acc : List (Int × Int)) =>
      forLoop (fun x acc2 => if g x y = true then some (acc2 ++ [(x, y)]) else some acc2)
        nx x0 acc)
    (fun v acc => y0 ≤ v ∧ acc.Nodup ∧
      ∀ p : Int × Int, p ∈ acc ↔
        (x0 ≤ p.1 ∧ p.1 < x0 + nx ∧ y0 ≤ p.2 ∧ p.2 < v ∧ g p.1 p.2 = true))
    (y0 + ny) ?_ ny y0 [] rfl
    ⟨le_refl _, List.nodup_nil, fun p => by
      simp only [List.not_mem_nil, false_iff]
      omega⟩
  · obtain ⟨tr, h1, -, h2, h3⟩ := key
    exact ⟨tr, h1, h2, h3⟩
  · rintro v acc hv ⟨hyv, hnd, hmem⟩
    obtain ⟨row, hrow, hrnd, hrmem⟩ := traceRow_total (fun x => g x v) v x0 nx acc
    refine ⟨acc ++ row, hrow, by omega, ?_, ?_⟩
    · rw [List.nodup_append]
      refine ⟨hnd, hrnd, ?_⟩
      intro p hp hp'
      have h1 := (hmem p).1 hp
      have h2 := (hrmem p).1 hp'
      omega
    · intro p
      rw [List.mem_append, hmem, hrmem]
      constructor
      · rintro (⟨a, b, c, d, e⟩ | ⟨a, b, c, d⟩)
        · exact ⟨a, b, c, by omega, e⟩
        · rw [a]
          exact ⟨b, c, hyv, by omega, d⟩
      · rintro ⟨a, b, c, d, e⟩
        by_cases h : p.2 = v
        · right
          rw [h] at e
          exact ⟨h, a, b, e⟩
        · left
          exact ⟨a, b, c, by omega, e⟩

/-- The coordinates `rectangle` writes, for a rect inside a layer: the cells of
the rect that are on the border (all its cells when `filled`), each written
once. -/
theorem rectangleWrites_spec {l : Layer} (hwf : l.wellFormed) {r : rect}
    (hr : l.contains r) (filled : Bool) :
    (rectangleWrites r filled).Nodup ∧
    ∀ p : Int × Int, p ∈ rectangleWrites r filled ↔
      (r.covers p.1 p.2 ∧ (filled = true ∨ r.onBorder p.1 p.2)) := by
  obtain ⟨e1, e2⟩ := rect_bounds hwf hr
  obtain ⟨tr, h1, h2, h3⟩ := traceNest_total (rectangleGuard r filled) r.x r.y
    (r.x + r.w - r.x).toNat (r.y + r.h - r.y).toNat
  have e : rectangleWrites r filled = tr := by
    unfold rectangleWrites rectangleWith
    rw [e1, e2, h1]
    rfl
  rw [e]
  refine ⟨h2, fun p => ?_⟩
  rw [h3]
  by_cases hpos : 0 < r.w ∧ 0 < r.h
  · rw [rectangleGuard_iff hwf hr hpos.1 hpos.2]
    unfold rect.covers
    constructor
    · rintro ⟨a, b, c, d, e⟩
      exact ⟨⟨a, by omega, c, by omega⟩, e⟩
    · rintro ⟨⟨a, b, c, d⟩, e⟩
      exact ⟨a, by omega, c, by omega, e⟩
  · unfold rect.covers
    constructor
    · rintro ⟨a, b, c, d, -⟩
      omega
    · rintro ⟨⟨a, b, c, d⟩, -⟩
      omega

/-- The number of writes of a filled rectangle. -/
theorem rectangleWrites_filled_length {l : Layer} (hwf : l.wellFormed) {r : rect}
    (hr : l.contains r) (hw : 0 ≤ r.w) (hh : 0 ≤ r.h) :
    ((rectangleWrites r true).length : Int) = r.w * r.h := by
  obtain ⟨hnd, hmem⟩ := rectangleWrites_spec hwf hr true
  have hset : (rectangleWrites r true).toFinset =
      Finset.Ico r.x (r.x + r.w) ×ˢ Finset.Ico r.y (r.y + r.h) := by
    ext p
    rw [List.mem_toFinset, hmem, Finset.mem_product, Finset.mem_Ico, Finset.mem_Ico]
    unfold rect.covers
    simp only [true_or, and_true]
    tauto
  rw [← List.toFinset_card_of_nodup hnd, hset, Finset.card_product, Int.card_Ico,
    Int.card_Ico]
  push_cast
  rw [Int.toNat_of_nonneg (by omega), Int.toNat_of_nonneg (by omega)]
  ring

/-- The number of writes of an outlined rectangle of width and height above 1:
the cells of the rect less its `(w-2) x (h-2)` interior. -/
theorem rectangleWrites_outline_length {l : Layer} (hwf : l.wellFormed) {r : rect}
    (hr : l.contains r) (hw : 1 < r.w) (hh : 1 < r.h) :
    ((rectangleWrites r false).length : Int) = 2 * (r.w + r.h) - 4 := by
  obtain ⟨hnd, hmem⟩ := rectangleWrites_spec hwf hr false
  have hset : (rectangleWrites r false).toFinset =
      (Finset.Ico r.x (r.x + r.w) ×ˢ Finset.Ico r.y (r.y + r.h)) \
        (Finset.Ico (r.x + 1) (r.x + r.w - 1) ×ˢ Finset.Ico (r.y + 1) (r.y + r.h - 1)) := by
    ext p
    rw [List.mem_toFinset, hmem, Finset.mem_sdiff, Finset.mem_product, Finset.mem_product,
      Finset.mem_Ico, Finset.mem_Ico, Finset.mem_Ico, Finset.mem_Ico]
    unfold rect.covers rect.onBorder
    simp only [Bool.false_eq_true, false_or]
    omega
  have hsub : (Finset.Ico (r.x + 1) (r.x + r.w - 1) ×ˢ Finset.Ico (r.y + 1) (r.y + r.h - 1))
      ⊆ (Finset.Ico r.x (r.x + r.w) ×ˢ Finset.Ico r.y (r.y + r.h)) := by
    intro p hp
    rw [Finset.mem_product, Finset.mem_Ico, Finset.mem_Ico] at *
    omega
  rw [← List.toFinset_card_of_nodup hnd, hset, Finset.card_sdiff hsub, Finset.card_product,
    Finset.card_product, Int.card_Ico, Int.card_Ico, Int.card_Ico, Int.card_Ico]
  obtain ⟨a, ha⟩ : ∃ a : Nat, r.w = (a : Int) + 2 := ⟨(r.w - 2).toNat, by omega⟩
  obtain ⟨b, hb⟩ : ∃ b : Nat, r.h = (b : Int) + 2 := ⟨(r.h - 2).toNat, by omega⟩
  have e1 : (r.x + r.w - r.x).toNat = a + 2 := by omega
  have e2 : (r.y + r.h - r.y).toNat = b + 2 := by omega
  have e3 : (r.x + r.w - 1 - (r.x + 1)).toNat = a := by omega
  have e4 : (r.y + r.h - 1 - (r.y + 1)).toNat = b := by omega
  rw [e1, e2, e3, e4, ha, hb]
  have e5 : (a + 2) * (b + 2) - a * b = 2 * a + 2 * b + 4 := by
    have : (a + 2) * (b + 2) = a * b + (2 * a + 2 * b + 4) := by ring
    omega
  rw [e5]
  push_cast
  ring

/-- In a list without repetition every element occurs once. -/
theorem count_of_nodup (tr : List (Int × Int)) (hnd : tr.Nodup) (p : Int × Int) :
    tr.count p = if p ∈ tr then 1 else 0 := by
  induction tr with
  | nil => simp
  | cons a t ih =>
    rw [List.nodup_cons] at hnd
    rw [List.count_cons, ih hnd.2]
    by_cases e : a = p
    · subst e
      simp [hnd.1]
    · have e' : ¬ p = a := fun h => e h.symm
      simp [e, e']

/-! ## isClear -/

/-- The inner loop of `isClear` over an in-bounds stretch of column `x`: it
returns, and with `true` exactly when every cell of the stretch is `nothing`. -/
theorem isClearColumn_spec {l : Layer} (hwf : l.wellFormed) {x : Int}
    (hx0 : 0 ≤ x) (hx1 : x < l.Width) :
    ∀ (n : Nat) (y0 : Int), 0 ≤ y0 → (n = 0 ∨ y0 + n ≤ l.Height) →
      ∃ b, l.isClearColumn x n y0 = some b ∧
        (b = true ↔ ∀ cy, y0 ≤ cy → cy < y0 + n → l.getTile x cy = some nothing) := by
  intro n
  induction n with
  | zero =>
    intro y0 _ _
    refine ⟨true, rfl, ?_⟩
    simp only [true_iff]
    intro cy h1 h2
    simp only [Nat.cast_zero, add_zero] at h2
    omega
  | succ n ih =>
    intro y0 hy0 hy1
    have hy1' : y0 + (n + 1 : Nat) ≤ l.Height := by
      rcases hy1 with h | h
      · omega
      · exact h
    push_cast at hy1'
    have hb : l.inBounds x y0 := ⟨hx0, hx1, hy0, by omega⟩
    obtain ⟨t, ht⟩ := getTile_isSome hwf hb
    by_cases hn : t = nothing
    · obtain ⟨b, hb1, hb2⟩ := ih (y0 + 1) (by omega) (Or.inr (by omega))
      refine ⟨b, ?_, ?_⟩
      · simp only [Layer.isClearColumn, ht, hn]
        simpa using hb1
      · rw [hb2]
        constructor
        · intro h cy h1 h2
          by_cases e : cy = y0
          · rw [e, ht, hn]
          · exact h cy (by omega) (by push_cast at h2; omega)
        · intro h cy h1 h2
          exact h cy (by omega) (by push_cast; omega)
    · refine ⟨false, ?_, ?_⟩
      · simp only [Layer.isClearColumn, ht]
        rw [if_pos hn]
      · simp only [Bool.false_eq_true, false_iff]
        intro h
        have := h y0 (le_refl _) (by push_cast; omega)
        rw [ht] at this
        exact hn (Option.some.inj this)

/-- The outer loop of `isClear` over an in-bounds area. -/
theorem isClearFrom_spec {l : Layer} (hwf : l.wellFormed) (roomY : Int) (ny : Nat)
    (hy0 : 0 ≤ roomY) (hy1 : ny = 0 ∨ roomY + ny ≤ l.Height) :
    ∀ (n : Nat) (x0 : Int), 0 ≤ x0 → (n = 0 ∨ x0 + n ≤ l.Width) →
      ∃ b, l.isClearFrom roomY ny n x0 = some b ∧
        (b = true ↔ ∀ cx cy, x0 ≤ cx → cx < x0 + n → roomY ≤ cy → cy < roomY + ny →
          l.getTile cx cy = some nothing) := by
  intro n
  induction n with
  | zero =>
    intro x0 _ _
    refine ⟨true, rfl, ?_⟩
    simp only [true_iff]
    intro cx cy h1 h2
    simp only [Nat.cast_zero, add_zero] at h2
    omega
  | succ n ih =>
    intro x0 hx0 hx1
    have hx1' : x0 + (n + 1 : Nat) ≤ l.Width := by
      rcases hx1 with h | h
      · omega
      · exact h
    push_cast at hx1'
    obtain ⟨c, hc1, hc2⟩ := isClearColumn_spec hwf hx0 (by omega) ny roomY hy0 hy1
    cases c with
    | false =>
      refine ⟨false, ?_, ?_⟩
      · simp only [Layer.isClearFrom, hc1]
      · simp only [Bool.false_eq_true, false_iff] at hc2 ⊢
        intro h
        exact hc2 (fun cy h1 h2 => h x0 cy (le_refl _) (by push_cast; omega) h1 h2)
    | true =>
      obtain ⟨b, hb1, hb2⟩ := ih (x0 + 1) (by omega) (Or.inr (by omega))
      refine ⟨b, ?_, ?_⟩
      · simp only [Layer.isClearFrom, hc1]
        exact hb1
      · rw [hb2]
        have hcol := hc2.1 rfl
        constructor
        · intro h cx cy h1 h2 h3 h4
          by_cases e : cx = x0
          · rw [e]
            exact hcol cy h3 h4
          · exact h cx cy (by omega) (by push_cast at h2; omega) h3 h4
        · intro h cx cy h1 h2 h3 h4
          exact h cx cy (by omega) (by push_cast; omega) h3 h4

/-- On an area inside a well-formed layer `isClear` returns, and with `true`
exactly when every cell of the area is `nothing`. -/
theorem isClear_spec {l : Layer} (hwf : l.wellFormed) {roomX roomY roomWidth roomHeight : Int}
    (hr : l.contains ⟨roomX, roomY, roomWidth, roomHeight⟩) :
    ∃ b, l.isClear roomX roomY roomWidth roomHeight = some b ∧
      (b = true ↔ ∀ cx cy, (⟨roomX, roomY, roomWidth, roomHeight⟩ : rect).covers cx cy →
        l.getTile cx cy = some nothing) := by
  obtain ⟨e1, e2⟩ := rect_bounds hwf hr
  obtain ⟨hx, hy, hwi, hhi, hxw, hyh⟩ := hr
  simp only at e1 e2 hx hy hxw hyh
  obtain ⟨b, hb1, hb2⟩ := isClearFrom_spec hwf roomY
    (roomY + roomHeight - roomY).toNat hy (by omega)
    (roomX + roomWidth - roomX).toNat roomX hx (by omega)
  refine ⟨b, ?_, ?_⟩
  · unfold Layer.isClear
    rw [e1, e2]
    exact hb1
  · rw [hb2]
    simp only [rect.covers]
    constructor
    · intro h cx cy ⟨a, b, c, d⟩
      exact h cx cy a (by omega) c (by omega)
    · intro h cx cy a b c d
      exact h cx cy ⟨a, by omega, c, by omega⟩

/-- Every in-bounds cell of a layer returned by `newLayer` is `nothing`. -/
theorem newLayer_cells {name : String} {w h : Int} {nl : Layer}
    (hnew : newLayer name w h = some nl) :
    ∀ x y, nl.inBounds x y → nl.getTile x y = some nothing := by
  unfold newLayer at hnew
  split at hnew
  · cases hnew
  · obtain ⟨hW, hH, hc⟩ := fill_cells _ nl nothing hnew
    intro x y hb
    apply hc
    unfold Layer.inBounds at *
    rw [hW, hH] at hb
    exact hb

/-! ## countTiles -/

theorem wrap64_succ (a : Int) : wrap64 (wrap64 a + 1) = wrap64 (a + 1) := by
  unfold wrap64
  omega

theorem sum_Ico_succ (f : Int → Nat) {a b : Int} (h : a ≤ b) :
    ∑ i in Finset.Ico a (b + 1), f i = ∑ i in Finset.Ico a b, f i + f b := by
  have e : Finset.Ico a (b + 1) = insert b (Finset.Ico a b) := by
    ext z
    simp only [Finset.mem_Ico, Finset.mem_insert]
    omega
  rw [e, Finset.sum_insert (by simp), add_comm]

/-- The inner loop of `countTiles` on column `xi`: it adds the contributions of
the positions `(xi, yi)`, `yi` in `[ylo, ylo+n)`. -/
theorem countColumn_total {l : Layer} (hwf : l.wellFormed) (t : Rune) (xi ylo : Int)
    (n k0 : Nat) :
    forLoop
      (fun yi c1 =>
        if xi < 0 ∨ xi ≥ l.Width ∨ yi < 0 ∨ yi ≥ l.Height then some (wrap64 (c1 + 1))
        else
          match l.getTile xi yi with
          | none => none
          | some t' => if t' = t then some (wrap64 (c1 + 1)) else some c1)
      n ylo (wrap64 k0) =
    some (wrap64 ((k0 + ∑ yi in Finset.Ico ylo (ylo + n), l.cellCount t xi yi : Nat) : Int)) := by
  have key := forLoop_total
    (fun yi (c1 : Int) =>
      if xi < 0 ∨ xi ≥ l.Width ∨ yi < 0 ∨ yi ≥ l.Height then some (wrap64 (c1 + 1))
      else
        match l.getTile xi yi with
        | none => none
        | some t' => if t' = t then some (wrap64 (c1 + 1)) else some c1)
    (fun v c => ylo ≤ v ∧
      c = wrap64 ((k0 + ∑ yi in Finset.Ico ylo v, l.cellCount t xi yi : Nat) : Int))
    (ylo + n) ?_ n ylo (wrap64 k0) rfl ⟨le_refl _, by simp⟩
  · obtain ⟨c, h1, -, h2⟩ := key
    rw [h1, h2]
  · rintro v c hv ⟨hlo, hc⟩
    beta_reduce
    rw [sum_Ico_succ _ hlo]
    by_cases hob : xi < 0 ∨ xi ≥ l.Width ∨ v < 0 ∨ v ≥ l.Height
    · have hcell : l.cellCount t xi v = 1 := by
        unfold Layer.cellCount
        rw [if_pos]
        unfold Layer.inBounds
        omega
      refine ⟨wrap64 (c + 1), by simp only [hob, if_true], by omega, ?_⟩
      rw [hc, wrap64_succ, hcell]
      push_cast
      ring_nf
    · have hb : l.inBounds xi v := by
        unfold Layer.inBounds
        omega
      obtain ⟨t', ht'⟩ := getTile_isSome hwf hb
      by_cases e : t' = t
      · have hcell : l.cellCount t xi v = 1 := by
          unfold Layer.cellCount
          rw [if_neg (not_not.2 hb), ht', e, if_pos rfl]
        refine ⟨wrap64 (c + 1), by simp only [hob, if_false, ht', e, if_true], by omega, ?_⟩
        rw [hc, wrap64_succ, hcell]
        push_cast
        ring_nf
      · have hcell : l.cellCount t xi v = 0 := by
          unfold Layer.cellCount
          rw [if_neg (not_not.2 hb), ht', if_neg]
          intro h
          exact e (Option.some.inj h)
        refine ⟨c, by simp only [hob, if_false, ht', e], by omega, ?_⟩
        rw [hc, hcell]
        simp

theorem Icc_eq_Ico_succ (a b : Int) : Finset.Icc a b = Finset.Ico a (b + 1) := by
  ext z
  simp only [Finset.mem_Icc, Finset.mem_Ico]
  omega

/-- The sum of the contributions over the square is the number of out-of-bounds
positions plus the number of in-bounds positions holding `t`. -/
theorem sum_cellCount_eq (l : Layer) (x y r : Int) (t : Rune) :
    ∑ xi in Finset.Ico (x - r) (x + r + 1), ∑ yi in Finset.Ico (y - r) (y + r + 1),
      l.cellCount t xi yi = l.matchingInSquare x y r t := by
  unfold Layer.matchingInSquare
  rw [Finset.card_filter, Finset.card_filter, ← Finset.sum_add_distrib, Finset.sum_product,
    Icc_eq_Ico_succ, Icc_eq_Ico_succ]
  refine Finset.sum_congr rfl (fun xi _ => Finset.sum_congr rfl (fun yi _ => ?_))
  unfold Layer.cellCount
  by_cases hb : l.inBounds xi yi
  · by_cases ht : l.getTile xi yi = some t
    · simp [hb, ht]
    · simp [hb, ht]
  · simp [hb]

/-- The value `countTiles` returns when the bounds of the square are
representable and `x+r`, `y+r` are not the largest `int`. -/
theorem countTiles_eq {l : Layer} (hwf : l.wellFormed) (x y r : Int) (t : Rune)
    (hx1 : isInt64 (x - r)) (hx2 : isInt64 (x + r)) (hx3 : x + r < 9223372036854775807)
    (hy1 : isInt64 (y - r)) (hy2 : isInt64 (y + r)) (hy3 : y + r < 9223372036854775807) :
    l.countTiles x y r t = some (wrap64 (l.matchingInSquare x y r t : Nat)) := by
  unfold Layer.countTiles forLoopLe
  rw [wrap64_of_isInt64 hx1, wrap64_of_isInt64 hx2, wrap64_of_isInt64 hy1,
    wrap64_of_isInt64 hy2, if_neg (by omega)]
  simp only [if_neg (show ¬ y + r = 9223372036854775807 by omega)]
  have hIy : Finset.Ico (y - r) (y - r + ((y + r + 1 - (y - r)).toNat : Int)) =
      Finset.Ico (y - r) (y + r + 1) := by
    ext z
    simp only [Finset.mem_Ico]
    omega
  have hIx : Finset.Ico (x - r) (x - r + ((x + r + 1 - (x - r)).toNat : Int)) =
      Finset.Ico (x - r) (x + r + 1) := by
    ext z
    simp only [Finset.mem_Ico]
    omega
  have key := forLoop_total
    (fun xi (c : Int) =>
      forLoop
        (fun yi c1 =>
          if xi < 0 ∨ xi ≥ l.Width ∨ yi < 0 ∨ yi ≥ l.Height then some (wrap64 (c1 + 1))
          else
            match l.getTile xi yi with
            | none => none
            | some t' => if t' = t then some (wrap64 (c1 + 1)) else some c1)
        (y + r + 1 - (y - r)).toNat (y - r) c)
    (fun v c => x - r ≤ v ∧
      c = wrap64 ((∑ xi in Finset.Ico (x - r) v,
        ∑ yi in Finset.Ico (y - r) (y + r + 1), l.cellCount t xi yi : Nat) : Int))
    (x - r + ((x + r + 1 - (x - r)).toNat : Int)) ?_ (x + r + 1 - (x - r)).toNat (x - r) 0 rfl
    ⟨le_refl _, by simp; decide⟩
  · obtain ⟨c, h1, -, h2⟩ := key
    rw [h1, h2, hIx, sum_cellCount_eq]
  · rintro v c hv ⟨hlo, hc⟩
    beta_reduce
    rw [sum_Ico_succ _ hlo, hc, countColumn_total hwf, hIy]
    exact ⟨_, rfl, by omega, rfl⟩

/-! ## get16Tile -/

/-- With the four neighbour tests returning, `get16Tile` reads `templateTiles` at
the index the switch selects. -/
theorem get16Tile_eq {m : Map} {x y : Int} {tile : Rune} {up right down left : Bool}
    (hu : isSameTile m x (wrap64 (y - 1)) tile = some up)
    (hr : isSameTile m (wrap64 (x + 1)) y tile = some right)
    (hd : isSameTile m x (wrap64 (y + 1)) tile = some down)
    (hl : isSameTile m (wrap64 (x - 1)) y tile = some left) (ids : List String) :
    get16Tile m x y tile ids =
      match get16Slot up right down left with
      | none => none
      | some k => ids[k]? := by
  unfold get16Tile
  simp only [hu, hr, hd, hl]

/-! ## The visible tile -/

theorem getTile_outOfBounds {m : Map} {x y : Int} (h : ¬ m.inBounds x y) :
    m.GetTile x y = some none := by
  unfold Map.GetTile
  rw [if_pos]
  unfold Map.inBounds at h
  omega

theorem getTile_inBounds {m : Map} {x y : Int} (h : m.inBounds x y) :
    m.GetTile x y = m.printCell x y := by
  unfold Map.GetTile
  rw [if_neg]
  unfold Map.inBounds at h
  omega

/-- A tile is returned only for an in-bounds coordinate. -/
theorem inBounds_of_getTile {m : Map} {x y : Int} {t : Rune}
    (h : m.GetTile x y = some (some t)) : m.inBounds x y := by
  by_contra hb
  rw [getTile_outOfBounds hb] at h
  cases h

/-- On a well-formed map with at least one layer every in-bounds coordinate has
a visible tile. -/
theorem getTile_total {m : Map} (hne : m.Layers ≠ []) (hwf : m.wellFormed) {x y : Int}
    (hb : m.inBounds x y) : ∃ t, m.GetTile x y = some (some t) := by
  obtain ⟨i, l, t, -, -, hp, -, -⟩ := printCell_spec hne hwf hb
  exact ⟨t, by rw [getTile_inBounds hb, hp]⟩

theorem dimsOk_of_wellFormed {m : Map} (hne : m.Layers ≠ []) (hwf : m.wellFormed) :
    m.dimsOk := by
  obtain ⟨l, hl⟩ := List.exists_mem_of_ne_nil _ hne
  obtain ⟨⟨h1, h2, h3, h4, h5, -⟩, hW, hH⟩ := hwf l hl
  unfold Map.dimsOk
  rw [← hW, ← hH]
  exact ⟨h1, h2, h3, h4, h5⟩

theorem isSameTile_eq_true_iff (m : Map) (x y : Int) (t : Rune) :
    isSameTile m x y t = some true ↔ m.GetTile x y = some (some t) := by
  unfold isSameTile
  cases h : m.GetTile x y with
  | none => simp
  | some r =>
    cases r with
    | none => simp
    | some other => simp

/-! ## The export loops -/

/-- The index `x+y*Width` of an in-bounds cell is computed without overflow,
lies in `[0, Width*Height)` and determines the cell. -/
theorem cellIndex_spec {m : Map} (hd : m.dimsOk) {x y : Int} (hb : m.inBounds x y) :
    wrap64 (x + wrap64 (y * m.Width)) = x + y * m.Width ∧ 0 ≤ x + y * m.Width ∧
      x + y * m.Width < m.Width * m.Height := by
  obtain ⟨hW, hH, hWi, hHi, hWHi⟩ := hd
  obtain ⟨hx0, hxW, hy0, hyH⟩ := hb
  have hs := slot_lt_of_inBounds hx0 hxW hy0 hyH
  have hm := mul_isInt64_of_inBounds hW hy0 hyH hWHi
  rw [wrap64_of_isInt64 hm]
  refine ⟨?_, hs.1, hs.2⟩
  apply wrap64_of_isInt64
  unfold isInt64 at *
  omega

theorem cellIndex_inj {m : Map} {x1 y1 x2 y2 : Int} (h1 : m.inBounds x1 y1)
    (h2 : m.inBounds x2 y2) (h : x1 + y1 * m.Width = x2 + y2 * m.Width) :
    x1 = x2 ∧ y1 = y2 := by
  obtain ⟨hx1, hx1W, -, -⟩ := h1
  obtain ⟨hx2, hx2W, -, -⟩ := h2
  have e1 : (x1 + y1 * m.Width) % m.Width = x1 := by
    rw [Int.add_mul_emod_self]; exact Int.emod_eq_of_lt hx1 hx1W
  have e2 : (x2 + y2 * m.Width) % m.Width = x2 := by
    rw [Int.add_mul_emod_self]; exact Int.emod_eq_of_lt hx2 hx2W
  have hx : x1 = x2 := by rw [← e1, ← e2, h]
  subst hx
  have hy : y1 * m.Width = y2 * m.Width := by omega
  exact ⟨rfl, Int.eq_of_mul_eq_mul_right (by omega) hy⟩

/-- The write of an in-bounds cell into a slice of `Width*Height` entries. -/
theorem storeCell_spec {m : Map} (hd : m.dimsOk) {x y : Int} (hb : m.inBounds x y)
    (id : String) (tiles : List String) (hlen : (tiles.length : Int) = m.Width * m.Height) :
    storeCell m x y id tiles = some (tiles.set (x + y * m.Width).toNat id) := by
  obtain ⟨e, h0, hlt⟩ := cellIndex_spec hd hb
  unfold storeCell
  rw [e, if_pos ⟨h0, by omega⟩]

/-- An export that returns has found an id for every in-bounds cell. -/
theorem exportTiles_cells {m : Map} {t : TMXTemplate} {tiles : List String}
    (h : exportTiles m t = some tiles) :
    ∀ x y, m.inBounds x y → ∃ id, exportCell m t x y = some id := by
  unfold exportTiles at h
  split at h
  · cases h
  · have key := forLoop_invariant
      (fun y (tiles0 : List String) =>
        forLoop
          (fun x (tiles1 : List String) =>
            match exportCell m t x y with
            | none => none
            | some id => storeCell m x y id tiles1)
          (m.Width - 0).toNat 0 tiles0)
      (fun v _ => ∀ x y, m.inBounds x y → y < v → ∃ id, exportCell m t x y = some id)
      (0 + ((m.Height - 0).toNat : Int)) ?_ (m.Height - 0).toNat 0 _ tiles rfl
      (fun x y hb hy => by unfold Map.inBounds at hb; omega) h
    · intro x y hb
      apply key x y hb
      unfold Map.inBounds at hb
      omega
    · intro v tiles0 tiles2 _ hI hrow
      have row := forLoop_invariant
        (fun x (tiles1 : List String) =>
          match exportCell m t x v with
          | none => none
          | some id => storeCell m x v id tiles1)
        (fun u _ => ∀ x y, m.inBounds x y → (y < v ∨ (y = v ∧ x < u)) →
          ∃ id, exportCell m t x y = some id)
        (0 + ((m.Width - 0).toNat : Int)) ?_ (m.Width - 0).toNat 0 tiles0 tiles2 rfl
        (fun x y hb hy => by
          rcases hy with hy | hy
          · exact hI x y hb hy
          · unfold Map.inBounds at hb; omega) hrow
      · intro x y hb hy
        apply row x y hb
        unfold Map.inBounds at hb
        omega
      · intro u tiles3 tiles4 _ hJ hstep x y hb hy
        by_cases e : x = u ∧ y = v
        · obtain ⟨rfl, rfl⟩ := e
          beta_reduce at hstep
          cases hc : exportCell m t x y with
          | none => rw [hc] at hstep; cases hstep
          | some id => exact ⟨id, rfl⟩
        · exact hJ x y hb (by omega)

/-- When every in-bounds cell has an id, the export returns `Width*Height`
entries, the id of cell `(x, y)` at position `x + y*Width`. -/
theorem exportTiles_total {m : Map} {t : TMXTemplate} (hd : m.dimsOk)
    (hexp : ∀ x y, m.inBounds x y → ∃ id, exportCell m t x y = some id) :
    ∃ tiles, exportTiles m t = some tiles ∧
      (tiles.length : Int) = m.Width * m.Height ∧
      ∀ x y, m.inBounds x y → tiles[(x + y * m.Width).toNat]? = exportCell m t x y := by
  have hd' := hd
  obtain ⟨hW, hH, hWi, hHi, hWHi⟩ := hd
  have hnn : 0 ≤ m.Width * m.Height := Int.mul_nonneg hW hH
  have hlen0 : m.tilesLen = m.Width * m.Height := wrap64_of_isInt64 hWHi
  have key := forLoop_total
    (fun y (tiles0 : List String) =>
      forLoop
        (fun x (tiles1 : List String) =>
          match exportCell m t x y with
          | none => none
          | some id => storeCell m x y id tiles1)
        (m.Width - 0).toNat 0 tiles0)
    (fun v tiles0 => 0 ≤ v ∧ (tiles0.length : Int) = m.Width * m.Height ∧
      ∀ x y, m.inBounds x y → y < v →
        tiles0[(x + y * m.Width).toNat]? = exportCell m t x y)
    (0 + ((m.Height - 0).toNat : Int)) ?_ (m.Height - 0).toNat 0
    (List.replicate m.tilesLen.toNat "") rfl
    ⟨le_refl _, by rw [List.length_replicate, hlen0]; omega,
      fun x y hb hy => by unfold Map.inBounds at hb; omega⟩
  · obtain ⟨tiles, h1, -, h2, h3⟩ := key
    refine ⟨tiles, ?_, h2, fun x y hb => h3 x y hb ?_⟩
    · unfold exportTiles
      rw [if_neg (by omega)]
      exact h1
    · unfold Map.inBounds at hb
      omega
  · rintro v tiles0 hv ⟨hv0, hlen, hI⟩
    have row := forLoop_total
      (fun x (tiles1 : List String) =>
        match exportCell m t x v with
        | none => none
        | some id => storeCell m x v id tiles1)
      (fun u tiles1 => 0 ≤ u ∧ (tiles1.length : Int) = m.Width * m.Height ∧
        ∀ x y, m.inBounds x y → (y < v ∨ (y = v ∧ x < u)) →
          tiles1[(x + y * m.Width).toNat]? = exportCell m t x y)
      (0 + ((m.Width - 0).toNat : Int)) ?_ (m.Width - 0).toNat 0 tiles0 rfl
      ⟨le_refl _, hlen, fun x y hb hy => by
        rcases hy with hy | hy
        · exact hI x y hb hy
        · unfold Map.inBounds at hb; omega⟩
    · obtain ⟨tiles2, h1, -, h2, h3⟩ := row
      refine ⟨tiles2, h1, by omega, h2, fun x y hb hy => h3 x y hb ?_⟩
      unfold Map.inBounds at hb
      omega
    · rintro u tiles1 hu ⟨hu0, hlen1, hJ⟩
      have hb : m.inBounds u v := ⟨hu0, by omega, hv0, by omega⟩
      obtain ⟨id, hid⟩ := hexp u v hb
      have hst := storeCell_spec hd' hb id tiles1 hlen1
      refine ⟨tiles1.set (u + v * m.Width).toNat id, by simp only [hid]; exact hst, by omega,
        by rw [List.length_set]; exact hlen1, ?_⟩
      intro x y hxy hy
      obtain ⟨-, h0, hlt⟩ := cellIndex_spec hd' hb
      obtain ⟨-, h0', -⟩ := cellIndex_spec hd' hxy
      by_cases e : x = u ∧ y = v
      · obtain ⟨rfl, rfl⟩ := e
        rw [hid, List.getElem?_set_self (by omega)]
      · have hne : u + v * m.Width ≠ x + y * m.Width := by
          intro h
          obtain ⟨a, b⟩ := cellIndex_inj hb hxy h
          exact e ⟨a.symm, b.symm⟩
        rw [List.getElem?_set_ne (by omega)]
        exact hJ x y hxy (by omega)

/-- The entries of an export that returns. -/
theorem exportTiles_spec {m : Map} {t : TMXTemplate} (hd : m.dimsOk) {tiles : List String}
    (h : exportTiles m t = some tiles) :
    (tiles.length : Int) = m.Width * m.Height ∧
      ∀ x y, m.inBounds x y → tiles[(x + y * m.Width).toNat]? = exportCell m t x y := by
  obtain ⟨tiles', h1, h2, h3⟩ := exportTiles_total hd (exportTiles_cells h)
  rw [h] at h1
  cases h1
  exact ⟨h2, h3⟩

/-! ## The id of one cell -/

theorem exportCell_nothing {m : Map} {x y : Int} (t : TMXTemplate)
    (h : m.GetTile x y = some (some nothing)) : exportCell m t x y = some t.nothingID := by
  unfold exportCell
  simp only [h, if_true]

theorem exportCell_terrain {m : Map} {x y : Int} {t : TMXTemplate} {tile : Rune}
    {flag : Bool} {ids : List String} (hterr : t.terrain tile = some (flag, ids))
    (h : m.GetTile x y = some (some tile)) :
    exportCell m t x y = if !flag then ids[0]? else get16Tile m x y tile ids := by
  unfold TMXTemplate.terrain at hterr
  unfold exportCell
  simp only [h]
  split at hterr
  · rename_i e
    cases hterr
    subst e
    rw [if_neg (by decide), if_pos rfl]
  · split at hterr
    · rename_i e
      cases hterr
      subst e
      rw [if_neg (by decide), if_neg (by decide), if_pos rfl]
    · split at hterr
      · rename_i e
        cases hterr
        subst e
        rw [if_neg (by decide), if_neg (by decide), if_neg (by decide), if_pos rfl]
      · split at hterr
        · rename_i e
          cases hterr
          subst e
          rw [if_neg (by decide), if_neg (by decide), if_neg (by decide), if_neg (by decide),
            if_pos rfl]
        · split at hterr
          · rename_i e
            cases hterr
            subst e
            rw [if_neg (by decide), if_neg (by decide), if_neg (by decide),
              if_neg (by decide), if_neg (by decide), if_pos rfl]
          · split at hterr
            · rename_i e
              cases hterr
              subst e
              rw [if_neg (by decide), if_neg (by decide), if_neg (by decide),
                if_neg (by decide), if_neg (by decide), if_neg (by decide), if_pos rfl]
            · cases hterr

theorem exportCell_door {m : Map} {x y : Int} (t : TMXTemplate)
    (h : m.GetTile x y = some (some door)) :
    exportCell m t x y =
      match m.GetTile (wrap64 (x - 1)) y with
      | none => none
      | some none => some t.doorH
      | some (some left) => if IsWall left then some t.doorH else some t.doorV := by
  unfold exportCell
  simp only [h]
  rw [if_neg (by decide), if_neg (by decide), if_neg (by decide), if_neg (by decide),
    if_neg (by decide), if_neg (by decide), if_neg (by decide), if_pos trivial]

theorem isWall_iff (b : Rune) : IsWall b = true ↔ (b = wall ∨ b = wall2) := by
  unfold IsWall
  simp

theorem layers_ne_nil_of_getTile {m : Map} {x y : Int} {tile : Rune}
    (h : m.GetTile x y = some (some tile)) : m.Layers ≠ [] := by
  rw [getTile_inBounds (inBounds_of_getTile h)] at h
  intro e
  unfold Map.printCell at h
  rw [e] at h
  simp [printCellFrom] at h

theorem isSameTile_outOfBounds {m : Map} {x y : Int} (tile : Rune)
    (h : ¬ m.inBounds x y) : isSameTile m x y tile = some false := by
  unfold isSameTile
  rw [getTile_outOfBounds h]

theorem isSameTile_of_ne {m : Map} {x y : Int} {tile other : Rune}
    (h : m.GetTile x y = some (some other)) (hne : other ≠ tile) :
    isSameTile m x y tile = some false := by
  unfold isSameTile
  rw [h]
  simp [hne]

/-- The coordinates of the four neighbours of an in-bounds cell are computed
without overflow. -/
theorem neighbour_coords {m : Map} (hd : m.dimsOk) {x y : Int} (hb : m.inBounds x y) :
    wrap64 (y - 1) = y - 1 ∧ wrap64 (x + 1) = x + 1 ∧ wrap64 (y + 1) = y + 1 ∧
      wrap64 (x - 1) = x - 1 := by
  obtain ⟨-, -, hWi, hHi, -⟩ := hd
  unfold Map.inBounds at hb
  unfold isInt64 at *
  refine ⟨?_, ?_, ?_, ?_⟩ <;> apply wrap64_of_isInt64 <;> unfold isInt64 <;> omega

/-- The id of a cell whose terrain uses variants, from the four neighbour
tests. -/
theorem exportCell_variants {m : Map} {t : TMXTemplate} {x y : Int} {tile : Rune}
    {ids : List String} (hd : m.dimsOk) (hterr : t.terrain tile = some (true, ids))
    (hvis : m.GetTile x y = some (some tile)) {up right down left : Bool}
    (hu : isSameTile m x (y - 1) tile = some up)
    (hr : isSameTile m (x + 1) y tile = some right)
    (hdn : isSameTile m x (y + 1) tile = some down)
    (hl : isSameTile m (x - 1) y tile = some left) :
    exportCell m t x y =
      match get16Slot up right down left with
      | none => none
      | some k => ids[k]? := by
  obtain ⟨e1, e2, e3, e4⟩ := neighbour_coords hd (inBounds_of_getTile hvis)
  rw [exportCell_terrain hterr hvis]
  rw [← e1] at hu
  rw [← e2] at hr
  rw [← e3] at hdn
  rw [← e4] at hl
  rw [← get16Tile_eq hu hr hdn hl]
  rfl

/-! ## Cells that can be exported -/

theorem getTile_returns {m : Map} (hne : m.Layers ≠ []) (hwf : m.wellFormed) (x y : Int) :
    ∃ r, m.GetTile x y = some r := by
  by_cases hb : m.inBounds x y
  · obtain ⟨t, ht⟩ := getTile_total hne hwf hb
    exact ⟨some t, ht⟩
  · exact ⟨none, getTile_outOfBounds hb⟩

theorem isSameTile_total {m : Map} (hne : m.Layers ≠ []) (hwf : m.wellFormed) (x y : Int)
    (tile : Rune) : ∃ b, isSameTile m x y tile = some b := by
  obtain ⟨r, hr⟩ := getTile_returns hne hwf x y
  unfold isSameTile
  rw [hr]
  cases r with
  | none => exact ⟨false, rfl⟩
  | some other => exact ⟨other == tile, rfl⟩

theorem get16Tile_total {m : Map} (hne : m.Layers ≠ []) (hwf : m.wellFormed) (x y : Int)
    (tile : Rune) {ids : List String} (hlen : ids.length = 16) :
    ∃ id, get16Tile m x y tile ids = some id := by
  obtain ⟨up, hu⟩ := isSameTile_total hne hwf x (wrap64 (y - 1)) tile
  obtain ⟨right, hr⟩ := isSameTile_total hne hwf (wrap64 (x + 1)) y tile
  obtain ⟨down, hd⟩ := isSameTile_total hne hwf x (wrap64 (y + 1)) tile
  obtain ⟨left, hl⟩ := isSameTile_total hne hwf (wrap64 (x - 1)) y tile
  have hall : ∀ u r d l : Bool, ∃ k : Fin 16, get16Slot u r d l = some k.val := by decide
  obtain ⟨k, hk⟩ := hall up right down left
  rw [get16Tile_eq hu hr hd hl, hk]
  exact ⟨ids[k.val], List.getElem?_eq_getElem (by rw [hlen]; exact k.isLt)⟩

theorem terrain_cell_total {m : Map} (hne : m.Layers ≠ []) (hwf : m.wellFormed)
    {t : TMXTemplate} {x y : Int} {tile : Rune} {flag : Bool} {ids : List String}
    (hterr : t.terrain tile = some (flag, ids)) (hlen : ids.length = 16)
    (hvis : m.GetTile x y = some (some tile)) : ∃ id, exportCell m t x y = some id := by
  rw [exportCell_terrain hterr hvis]
  cases flag with
  | false => exact ⟨ids[0], List.getElem?_eq_getElem (by rw [hlen]; decide)⟩
  | true => exact get16Tile_total hne hwf x y tile hlen

/-- A cell whose visible tile has a case in the switch gets an id, when the id
arrays have 16 entries. -/
theorem exportCell_of_exportable {m : Map} (hne : m.Layers ≠ []) (hwf : m.wellFormed)
    {t : TMXTemplate} (h16 : t.arrays16) {x y : Int} {tile : Rune}
    (hvis : m.GetTile x y = some (some tile)) (hex : exportable tile) :
    ∃ id, exportCell m t x y = some id := by
  obtain ⟨a1, a2, a3, a4, a5, a6⟩ := h16
  rcases hex with h | h | h | h | h | h | h | h
  · subst h
    exact ⟨_, exportCell_nothing t hvis⟩
  · subst h
    have ht : t.terrain floor = some (t.floorTerrain, t.floorIDs) := rfl
    exact terrain_cell_total hne hwf ht a1 hvis
  · subst h
    have ht : t.terrain floor2 = some (t.floor2Terrain, t.floor2IDs) := rfl
    exact terrain_cell_total hne hwf ht a2 hvis
  · subst h
    have ht : t.terrain wall = some (t.wallTerrain, t.wallIDs) := rfl
    exact terrain_cell_total hne hwf ht a3 hvis
  · subst h
    have ht : t.terrain wall2 = some (t.wall2Terrain, t.wall2IDs) := rfl
    exact terrain_cell_total hne hwf ht a4 hvis
  · subst h
    have ht : t.terrain room = some (t.roomTerrain, t.roomIDs) := rfl
    exact terrain_cell_total hne hwf ht a5 hvis
  · subst h
    have ht : t.terrain room2 = some (t.room2Terrain, t.room2IDs) := rfl
    exact terrain_cell_total hne hwf ht a6 hvis
  · subst h
    rw [exportCell_door t hvis]
    obtain ⟨r, hr⟩ := getTile_returns hne hwf (wrap64 (x - 1)) y
    rw [hr]
    cases r with
    | none => exact ⟨_, rfl⟩
    | some left =>
      by_cases hw : IsWall left = true
      · exact ⟨t.doorH, if_pos hw⟩
      · exact ⟨t.doorV, if_neg hw⟩

/-- The export of the 3x3 map with a wall at the centre, for a template whose
walls use variants: `nothingID` everywhere but entry 15 of the wall ids at
position 4. -/
theorem exportTiles_centreWallMap (t : TMXTemplate) (w : String)
    (hflag : t.wallTerrain = true) (hw : t.wallIDs[15]? = some w) :
    exportTiles centreWallMap t =
      some [t.nothingID, t.nothingID, t.nothingID, t.nothingID, w, t.nothingID, t.nothingID,
        t.nothingID, t.nothingID] := by
  have hd : centreWallMap.dimsOk := by decide
  have hterr : t.terrain wall = some (true, t.wallIDs) := by
    rw [← hflag]
    rfl
  have hu : isSameTile centreWallMap 1 (1 - 1) wall = some false := by decide
  have hr : isSameTile centreWallMap (1 + 1) 1 wall = some false := by decide
  have hdn : isSameTile centreWallMap 1 (1 + 1) wall = some false := by decide
  have hl : isSameTile centreWallMap (1 - 1) 1 wall = some false := by decide
  have hcentre : exportCell centreWallMap t 1 1 = some w := by
    rw [exportCell_variants hd hterr (by decide) hu hr hdn hl]
    exact hw
  have hcell : ∀ x y, centreWallMap.inBounds x y →
      exportCell centreWallMap t x y = some (if x = 1 ∧ y = 1 then w else t.nothingID) := by
    intro x y hb
    simp only [Map.inBounds, centreWallMap] at hb
    have hx : x = 0 ∨ x = 1 ∨ x = 2 := by omega
    have hy : y = 0 ∨ y = 1 ∨ y = 2 := by omega
    rcases hx with rfl | rfl | rfl <;> rcases hy with rfl | rfl | rfl
    all_goals first
      | exact exportCell_nothing t (by decide)
      | exact hcentre
  obtain ⟨tiles, h1, h2, h3⟩ := exportTiles_total hd (fun x y hb => ⟨_, hcell x y hb⟩)
  rw [h1]
  congr 1
  apply List.ext_getElem?
  intro i
  have hlen : tiles.length = 9 := by
    have : (tiles.length : Int) = 3 * 3 := h2
    omega
  by_cases hi : i < 9
  · have key : ∀ x y : Int, centreWallMap.inBounds x y →
        tiles[(x + y * 3).toNat]? = some (if x = 1 ∧ y = 1 then w else t.nothingID) :=
      fun x y hb => (h3 x y hb).trans (hcell x y hb)
    interval_cases i
    · exact key 0 0 (by decide)
    · exact key 1 0 (by decide)
    · exact key 2 0 (by decide)
    · exact key 0 1 (by decide)
    · exact key 1 1 (by decide)
    · exact key 2 1 (by decide)
    · exact key 0 2 (by decide)
    · exact key 1 2 (by decide)
    · exact key 2 2 (by decide)
  · rw [List.getElem?_eq_none (by omega), List.getElem?_eq_none (by simp; omega)]

/-! ## Claims -/

/-- C1: for every layer, every in-bounds coordinate and every symbol `s`,
`getTile(x, y)` after `setTile(x, y, s)` returns `s`: whenever the write returns,
the read gives `s`, and on a layer with `len(Tiles) = Width*Height` the write
does return. -/
theorem setTile_then_getTile (l : Layer) (x y : Int) (s : Rune)
    (hb : l.inBounds x y) :
    (∀ l', l.setTile x y s = some l' → l'.getTile x y = some s) ∧
    (l.wellFormed → ∃ l', l.setTile x y s = some l' ∧ l'.getTile x y = some s) := by
  refine ⟨fun l' h => getTile_of_setTile h, fun hwf => ?_⟩
  exact ⟨_, setTile_eq_some hwf hb s, getTile_of_setTile (setTile_eq_some hwf hb s)⟩

/-- Witness of C1 on a 2x2 layer at `(1, 1)`. -/
theorem setTile_then_getTile_witness :
    (⟨"Ground", [32, 32, 32, 32], 2, 2⟩ : Layer).inBounds 1 1 ∧
    (⟨"Ground", [32, 32, 32, 32], 2, 2⟩ : Layer).wellFormed ∧
    ∃ l', (⟨"Ground", [32, 32, 32, 32], 2, 2⟩ : Layer).setTile 1 1 wall = some l' ∧
      l'.getTile 1 1 = some wall :=
  ⟨by decide, by decide,
    (setTile_then_getTile ⟨"Ground", [32, 32, 32, 32], 2, 2⟩ 1 1 wall (by decide)).2
      (by decide)⟩

/-- C2, as stated, fails: on a well-formed 2x2 layer the out-of-bounds
coordinate `(2, 0)` is served from slot 2, the slot of cell `(0, 1)`. -/
theorem getTile_setTile_outOfBounds_counterexample :
    ¬ (∀ (l : Layer) (x y : Int) (s : Rune), l.wellFormed → ¬ l.inBounds x y →
        l.getTile x y = none ∧ l.setTile x y s = none) := by
  intro h
  have h1 := (h ⟨"Ground", [nothing, nothing, wall, nothing], 2, 2⟩ 2 0 floor
    (by decide) (by decide)).1
  revert h1
  decide

/-- C2, amended: `getTile` and `setTile` do no bounds check on `x` and `y`. They
fault exactly when the slot `x + y*Width` lies outside `[0, len(Tiles))`; a
coordinate whose slot is inside that range is served from that slot. So on a
layer with `len(Tiles) = Width*Height`, `Width >= 1` and `Height >= 2` the
out-of-bounds coordinate `(Width, 0)` reads and writes cell `(0, 1)`. -/
theorem getTile_setTile_fault_iff (l : Layer) (x y : Int) (s : Rune) :
    (l.getTile x y = none ↔ ¬ (0 ≤ l.slot x y ∧ l.slot x y < l.Tiles.length)) ∧
    (l.setTile x y s = none ↔ ¬ (0 ≤ l.slot x y ∧ l.slot x y < l.Tiles.length)) ∧
    (0 ≤ l.slot x y ∧ l.slot x y < l.Tiles.length →
      l.getTile x y = l.Tiles[(l.slot x y).toNat]? ∧
      l.setTile x y s = some { l with Tiles := l.Tiles.set (l.slot x y).toNat s }) ∧
    (l.wellFormed → 1 ≤ l.Width → 2 ≤ l.Height →
      ¬ l.inBounds l.Width 0 ∧ l.inBounds 0 1 ∧
      l.getTile l.Width 0 = l.getTile 0 1 ∧ (∃ t, l.getTile l.Width 0 = some t) ∧
      l.setTile l.Width 0 s = l.setTile 0 1 s ∧
      (∃ l', l.setTile l.Width 0 s = some l' ∧ l'.getTile 0 1 = some s)) := by
  refine ⟨?_, ?_, ?_, ?_⟩
  · unfold Layer.getTile
    split
    · rename_i h0
      rw [List.getElem?_eq_none_iff]
      omega
    · rename_i h0
      simp only [true_iff]
      omega
  · unfold Layer.setTile
    split
    · rename_i h0
      simp only [reduceCtorEq, false_iff, not_not]
      omega
    · rename_i h0
      simp only [true_iff]
      omega
  · intro h
    unfold Layer.getTile Layer.setTile
    rw [if_pos h.1, if_pos ⟨h.1, by omega⟩]
    exact ⟨rfl, rfl⟩
  · intro hwf hW hH
    have hb : l.inBounds 0 1 := by
      unfold Layer.inBounds
      omega
    have hs : l.slot l.Width 0 = l.slot 0 1 := by
      have hWi : isInt64 l.Width := hwf.2.2.1
      unfold Layer.slot
      simp only [zero_mul, one_mul, zero_add]
      rw [wrap64_of_isInt64 hWi]
      have : wrap64 0 = 0 := by decide
      rw [this, add_zero]
    have hg : l.getTile l.Width 0 = l.getTile 0 1 := by
      unfold Layer.getTile
      rw [hs]
    have hset : l.setTile l.Width 0 s = l.setTile 0 1 s := by
      unfold Layer.setTile
      rw [hs]
    refine ⟨?_, hb, hg, ?_, hset, ?_⟩
    · unfold Layer.inBounds
      omega
    · rw [hg]
      exact getTile_isSome hwf hb
    · rw [hset]
      exact ⟨_, setTile_eq_some hwf hb s, getTile_of_setTile (setTile_eq_some hwf hb s)⟩

/-- Witness of the amended C2 on a 2x2 layer: `(2, 0)` reads the wall of cell
`(0, 1)`. -/
theorem getTile_setTile_fault_iff_witness :
    (⟨"Ground", [nothing, nothing, wall, nothing], 2, 2⟩ : Layer).wellFormed ∧
    (⟨"Ground", [nothing, nothing, wall, nothing], 2, 2⟩ : Layer).getTile 2 0 =
      (⟨"Ground", [nothing, nothing, wall, nothing], 2, 2⟩ : Layer).getTile 0 1 ∧
    (⟨"Ground", [nothing, nothing, wall, nothing], 2, 2⟩ : Layer).getTile 2 0 = some wall :=
  ⟨by decide,
    ((getTile_setTile_fault_iff ⟨"Ground", [nothing, nothing, wall, nothing], 2, 2⟩ 2 0
      floor).2.2.2 (by decide) (by decide) (by decide)).2.2.1,
    by decide⟩

/-- C3: on a layer with `len(Tiles) = Width*Height`, `setTile(x, y, s)` at an
in-bounds coordinate overwrites exactly one cell: every other in-bounds
coordinate reads as before, `Width`, `Height`, `Name` and `len(Tiles)` are
unchanged, and the slot map `(x, y) -> x + y*Width` is injective on in-bounds
coordinates and lands in `[0, Width*Height)`. -/
theorem setTile_overwrites_one_cell (l : Layer) (x y : Int) (s : Rune)
    (hwf : l.wellFormed) (hb : l.inBounds x y) :
    (∃ l', l.setTile x y s = some l' ∧
      l'.Width = l.Width ∧ l'.Height = l.Height ∧ l'.Name = l.Name ∧
      l'.Tiles.length = l.Tiles.length ∧
      l'.getTile x y = some s ∧
      ∀ cx cy, l.inBounds cx cy → (cx, cy) ≠ (x, y) →
        l'.getTile cx cy = l.getTile cx cy) ∧
    (∀ x1 y1 x2 y2, l.inBounds x1 y1 → l.inBounds x2 y2 →
      l.slot x1 y1 = l.slot x2 y2 → (x1, y1) = (x2, y2)) ∧
    (∀ cx cy, l.inBounds cx cy →
      l.slot cx cy = cx + cy * l.Width ∧ 0 ≤ l.slot cx cy ∧
        l.slot cx cy < l.Width * l.Height) := by
  refine ⟨?_, ?_, ?_⟩
  · have hset := setTile_eq_some hwf hb s
    obtain ⟨hN, hW, hH, hlen⟩ := setTile_fields hset
    refine ⟨_, hset, hW, hH, hN, hlen, getTile_of_setTile hset, ?_⟩
    intro cx cy hc hne
    apply getTile_of_setTile_ne hwf hb hc _ hset
    rintro ⟨rfl, rfl⟩
    exact hne rfl
  · intro x1 y1 x2 y2 h1 h2 h
    obtain ⟨rfl, rfl⟩ := slot_inj hwf h1 h2 h
    rfl
  · intro cx cy hc
    obtain ⟨e, h0, hlt⟩ := slot_of_inBounds hwf hc
    refine ⟨e, h0, ?_⟩
    have hlen := hwf.2.2.2.2.2
    omega

/-- Witness of C3 on a 2x2 layer, writing `(1, 0)`. -/
theorem setTile_overwrites_one_cell_witness :
    (⟨"Ground", [nothing, nothing, wall, nothing], 2, 2⟩ : Layer).wellFormed ∧
    (⟨"Ground", [nothing, nothing, wall, nothing], 2, 2⟩ : Layer).inBounds 1 0 ∧
    ∃ l', (⟨"Ground", [nothing, nothing, wall, nothing], 2, 2⟩ : Layer).setTile 1 0 floor
        = some l' ∧
      l'.Width = 2 ∧ l'.Height = 2 ∧ l'.Name = "Ground" ∧ l'.Tiles.length = 4 ∧
      l'.getTile 1 0 = some floor ∧
      ∀ cx cy, (⟨"Ground", [nothing, nothing, wall, nothing], 2, 2⟩ : Layer).inBounds cx cy →
        (cx, cy) ≠ (1, 0) →
        l'.getTile cx cy =
          (⟨"Ground", [nothing, nothing, wall, nothing], 2, 2⟩ : Layer).getTile cx cy :=
  ⟨by decide, by decide,
    (setTile_overwrites_one_cell ⟨"Ground", [nothing, nothing, wall, nothing], 2, 2⟩ 1 0
      floor (by decide) (by decide)).1⟩

/-- C4: after `fill(s)` every in-bounds cell reads `s` (for every layer, whenever
`fill` returns; and it returns on every layer with `Width, Height >= 0` and
`len(Tiles) = Width*Height`), so the tile printed for every cell of a map whose
single layer is the filled one is `s`; and for `w, h >= 0` `newLayer(name, w, h)`
returns a layer named `name` of size `w` x `h` with exactly `w*h` cells, all
equal to `nothing`. -/
theorem fill_sets_every_cell (l : Layer) (s : Rune) (name : String) (w h : Int) :
    (∀ l', l.fill s = some l' → ∀ x y, l.inBounds x y →
      l'.getTile x y = some s ∧
      (⟨[l'], l'.Width, l'.Height⟩ : Map).printCell x y = some (some s)) ∧
    (l.wellFormed → ∃ l', l.fill s = some l' ∧ l'.wellFormed ∧
      l'.Width = l.Width ∧ l'.Height = l.Height ∧ l'.Name = l.Name) ∧
    (0 ≤ w → 0 ≤ h → isInt64 w → isInt64 h → isInt64 (w * h) →
      ∃ nl, newLayer name w h = some nl ∧ nl.Name = name ∧ nl.Width = w ∧
        nl.Height = h ∧ (nl.Tiles.length : Int) = w * h ∧
        (∀ t ∈ nl.Tiles, t = nothing) ∧
        ∀ x y, nl.inBounds x y → nl.getTile x y = some nothing) := by
  refine ⟨?_, ?_, ?_⟩
  · intro l' hfill x y hb
    have hg := (fill_cells l l' s hfill).2.2 x y hb
    refine ⟨hg, ?_⟩
    simp [Map.printCell, printCellFrom, hg]
  · intro hwf
    obtain ⟨l', hfill, hp⟩ := fill_total l s hwf
    exact ⟨l', hfill, paintedFrom_wellFormed hwf hp, hp.2.1, hp.2.2.1, hp.1⟩
  · intro hw hh hwi hhi hwh
    obtain ⟨nl, hnew, hN, hW, hH, hwf, hT⟩ := newLayer_total name w h hw hh hwi hhi hwh
    refine ⟨nl, hnew, hN, hW, hH, ?_, ?_, ?_⟩
    · have := hwf.2.2.2.2.2
      rw [this, hW, hH]
    · intro t ht
      rw [hT] at ht
      exact (List.mem_replicate.1 ht).2
    · intro x y hb
      obtain ⟨t, ht⟩ := getTile_isSome hwf hb
      rw [ht]
      have hm : t ∈ nl.Tiles := by
        rw [getTile_eq_getElem? hwf hb] at ht
        exact List.getElem?_mem ht
      rw [hT] at hm
      rw [(List.mem_replicate.1 hm).2]

/-- Witness of C4: filling a 2x2 layer with `wall`, and `newLayer("Ground", 2, 2)`. -/
theorem fill_sets_every_cell_witness :
    (⟨"Ground", [nothing, floor, nothing, door], 2, 2⟩ : Layer).wellFormed ∧
    (∃ l', (⟨"Ground", [nothing, floor, nothing, door], 2, 2⟩ : Layer).fill wall = some l' ∧
      l'.wellFormed ∧ l'.Width = 2 ∧ l'.Height = 2 ∧ l'.Name = "Ground") ∧
    (∃ nl, newLayer "Ground" 2 2 = some nl ∧ nl.Name = "Ground" ∧ nl.Width = 2 ∧
        nl.Height = 2 ∧ (nl.Tiles.length : Int) = 2 * 2 ∧
        (∀ t ∈ nl.Tiles, t = nothing) ∧
        ∀ x y, nl.inBounds x y → nl.getTile x y = some nothing) :=
  ⟨by decide,
    (fill_sets_every_cell ⟨"Ground", [nothing, floor, nothing, door], 2, 2⟩ wall
      "Ground" 2 2).2.1 (by decide),
    (fill_sets_every_cell ⟨"Ground", [nothing, floor, nothing, door], 2, 2⟩ wall
      "Ground" 2 2).2.2 (by decide) (by decide) (by decide) (by decide) (by decide)⟩

/-- C5: composite resolution as implemented by the layer loop of `Map.Print`. On
a map with at least one layer (each of the map's size, `len(Tiles) =
Width*Height`) and an in-bounds `(x, y)` the loop prints exactly one tile: the
tile of the first layer, from index 0 upward, whose tile at `(x, y)` is not
`nothing`; if every layer holds `nothing` there, the tile of the last layer,
which is `nothing`. Hence when a lower and a higher layer both hold a tile other
than `nothing`, the tile printed is not taken from above the lower one. -/
theorem printCell_first_non_nothing (m : Map) (x y : Int) (hne : m.Layers ≠ [])
    (hwf : m.wellFormed) (hb : m.inBounds x y) :
    (∃ t, m.printCell x y = some (some t)) ∧
    (∀ (i : Nat) (l : Layer) (t : Rune), m.Layers[i]? = some l →
      l.getTile x y = some t → t ≠ nothing →
      (∀ (j : Nat) (l' : Layer), j < i → m.Layers[j]? = some l' →
        l'.getTile x y = some nothing) →
      m.printCell x y = some (some t)) ∧
    ((∀ l ∈ m.Layers, l.getTile x y = some nothing) →
      m.printCell x y = some ((m.Layers.getLast hne).getTile x y) ∧
      m.printCell x y = some (some nothing)) ∧
    (∀ (i j : Nat) (li lj : Layer) (ti tj : Rune), i < j →
      m.Layers[i]? = some li → m.Layers[j]? = some lj →
      li.getTile x y = some ti → lj.getTile x y = some tj → ti ≠ nothing → tj ≠ nothing →
      ∃ (k : Nat) (lk : Layer) (tk : Rune), k ≤ i ∧ m.Layers[k]? = some lk ∧
        lk.getTile x y = some tk ∧
        tk ≠ nothing ∧ m.printCell x y = some (some tk)) := by
  obtain ⟨i0, l0, t0, hi0, hl0, hp0, hbelow0, hlast0⟩ := printCell_spec hne hwf hb
  refine ⟨⟨t0, hp0⟩, ?_, ?_, ?_⟩
  · intro i l t hi hl ht hbelow
    have hilt : i < m.Layers.length := (List.getElem?_eq_some_iff.1 hi).1
    rcases Nat.lt_trichotomy i0 i with h | h | h
    · have h1 := hbelow i0 l0 h hi0
      rw [hl0] at h1
      rcases hlast0 with h2 | h2
      · exact absurd (Option.some.inj h1) h2
      · omega
    · subst h
      rw [hi0] at hi
      cases hi
      rw [hl0] at hl
      cases hl
      exact hp0
    · have h1 := hbelow0 i l h hi
      rw [hl] at h1
      exact absurd (Option.some.inj h1) ht
  · intro hall
    have h0 : t0 = nothing := by
      have := hall l0 (List.getElem?_mem hi0)
      rw [hl0] at this
      exact Option.some.inj this
    rw [hall _ (List.getLast_mem hne), hp0, h0]
    exact ⟨rfl, rfl⟩
  · intro i j li lj ti tj hij hi hj hli hlj hti htj
    have hjlt : j < m.Layers.length := (List.getElem?_eq_some_iff.1 hj).1
    have hle : i0 ≤ i := by
      by_contra hcon
      have h1 := hbelow0 i li (by omega) hi
      rw [hli] at h1
      exact hti (Option.some.inj h1)
    refine ⟨i0, l0, t0, hle, hi0, hl0, ?_, hp0⟩
    rcases hlast0 with h | h
    · exact h
    · omega

/-- Witness of C5: a 1x1 map whose bottom layer holds `floor` and whose top layer
holds `wall` prints `floor`. -/
theorem printCell_first_non_nothing_witness :
    (⟨[⟨"Ground", [floor], 1, 1⟩, ⟨"Structures", [wall], 1, 1⟩], 1, 1⟩ : Map).inBounds 0 0 ∧
    (⟨[⟨"Ground", [floor], 1, 1⟩, ⟨"Structures", [wall], 1, 1⟩], 1, 1⟩ : Map).printCell 0 0
      = some (some floor) :=
  ⟨by decide,
    (printCell_first_non_nothing
      ⟨[⟨"Ground", [floor], 1, 1⟩, ⟨"Structures", [wall], 1, 1⟩], 1, 1⟩ 0 0
      (by decide)
      (by
        intro l hl
        simp only [List.mem_cons, List.mem_singleton, List.not_mem_nil, or_false] at hl
        rcases hl with rfl | rfl <;> decide)
      (by decide)).2.1 0 ⟨"Ground", [floor], 1, 1⟩ floor rfl (by decide) (by decide)
      (fun j l' hj => absurd hj (Nat.not_lt_zero j))⟩

/-- C6: `Map.Layer(name)` is get-or-create. If some layer has that name it
returns the first such layer and the map is unchanged; a call repeated with the
same name returns the same layer of the same map, adding nothing. Otherwise it
appends exactly one new layer at the end, named `name`, with the map's `Width`
and `Height` and all cells `nothing`, the earlier layers staying in place, and
returns that new layer (whenever the call returns; and it does return when the
map's dimensions are non-negative with a representable product). Starting from `NewMap(w, h)`, after any sequence of
`Layer` calls every layer has `Width = w` and `Height = h`. -/
theorem map_layer_get_or_create (m : Map) (name : String) (w h : Int) :
    ((∃ l ∈ m.Layers, l.Name = name) →
      ∃ (i : Nat) (l : Layer), m.Layer name = some (m, i) ∧ m.Layers[i]? = some l ∧
        l.Name = name ∧
        ∀ (j : Nat) (l' : Layer), j < i → m.Layers[j]? = some l' → l'.Name ≠ name) ∧
    (∀ (m1 : Map) (i : Nat), m.Layer name = some (m1, i) →
      m1.Layer name = some (m1, i)) ∧
    ((∀ l ∈ m.Layers, l.Name ≠ name) → 0 ≤ m.Width → 0 ≤ m.Height →
      isInt64 m.Width → isInt64 m.Height → isInt64 (m.Width * m.Height) →
      ∃ nl : Layer,
        m.Layer name = some (⟨m.Layers ++ [nl], m.Width, m.Height⟩, m.Layers.length) ∧
        (m.Layers ++ [nl])[m.Layers.length]? = some nl ∧
        nl.Name = name ∧ nl.Width = m.Width ∧ nl.Height = m.Height ∧
        nl.Tiles = List.replicate (m.Width * m.Height).toNat nothing) ∧
    ((∀ l ∈ m.Layers, l.Name ≠ name) →
      ∀ (m1 : Map) (i : Nat), m.Layer name = some (m1, i) →
      ∃ nl : Layer, m1 = ⟨m.Layers ++ [nl], m.Width, m.Height⟩ ∧ i = m.Layers.length ∧
        nl.Name = name ∧ nl.Width = m.Width ∧ nl.Height = m.Height ∧
        ∀ x y, nl.inBounds x y → nl.getTile x y = some nothing) ∧
    (∀ (m0 m1 : Map) (names : List String), NewMap w h = some m0 →
      layerCalls m0 names = some m1 →
      m1.Width = w ∧ m1.Height = h ∧ ∀ l ∈ m1.Layers, l.Width = w ∧ l.Height = h) ∧
    (0 ≤ w → 0 ≤ h → isInt64 w → isInt64 h → isInt64 (w * h) →
      ∃ m0, NewMap w h = some m0 ∧ ∀ names : List String, ∃ m1, layerCalls m0 names = some m1) := by
  refine ⟨?_, ?_, ?_, ?_, ?_, ?_⟩
  · rintro ⟨l, hl, hn⟩
    cases hk : layerIndex name m.Layers with
    | none => exact absurd hn (layerIndex_none.1 hk l hl)
    | some i =>
      obtain ⟨l0, h0, hn0, hbelow⟩ := layerIndex_some hk
      refine ⟨i, l0, ?_, h0, hn0, hbelow⟩
      unfold Map.Layer
      rw [hk]
  · intro m1 i hcall
    rcases map_layer_cases hcall with ⟨hk, rfl⟩ | ⟨hk, rfl, nl, hnl, rfl⟩
    · exact hcall
    · have hidx : layerIndex name (m.Layers ++ [nl]) = some m.Layers.length :=
        layerIndex_append_new (newLayer_fields hnl).1 (layerIndex_none.1 hk)
      unfold Map.Layer
      simp only [hidx]
  · intro hall hw hh hwi hhi hwh
    obtain ⟨nl, hnl, hN, hW, hH, -, hT⟩ := newLayer_total name m.Width m.Height hw hh hwi hhi hwh
    refine ⟨nl, ?_, by simp, hN, hW, hH, hT⟩
    unfold Map.Layer
    rw [layerIndex_none.2 hall]
    simp only [hnl]
    simp
  · intro hall m1 i hcall
    rcases map_layer_cases hcall with ⟨hk, -⟩ | ⟨-, hi, nl, hnl, hm1⟩
    · rw [layerIndex_none.2 hall] at hk
      cases hk
    · obtain ⟨hN, hW, hH⟩ := newLayer_fields hnl
      exact ⟨nl, hm1, hi, hN, hW, hH, newLayer_cells hnl⟩
  · intro m0 m1 names hnew hcalls
    exact layerCalls_dims names m0 m1 (newMap_dims hnew) hcalls
  · intro hw hh hwi hhi hwh
    obtain ⟨m0, hnew⟩ := newMap_total hw hh hwi hhi hwh
    exact ⟨m0, hnew, fun names =>
      layerCalls_total hw hh hwi hhi hwh names m0 (newMap_dims hnew)⟩

/-- Witness of C6 on a 1x1 map with the single layer "Ground": asking for
"Ground" finds it, asking for "Decor" appends a layer. -/
theorem map_layer_get_or_create_witness :
    (∃ (i : Nat) (l : Layer),
      (⟨[⟨"Ground", [floor], 1, 1⟩], 1, 1⟩ : Map).Layer "Ground" =
        some (⟨[⟨"Ground", [floor], 1, 1⟩], 1, 1⟩, i) ∧
      (⟨[⟨"Ground", [floor], 1, 1⟩], 1, 1⟩ : Map).Layers[i]? = some l ∧
      l.Name = "Ground" ∧
      ∀ (j : Nat) (l' : Layer), j < i →
        (⟨[⟨"Ground", [floor], 1, 1⟩], 1, 1⟩ : Map).Layers[j]? = some l' →
        l'.Name ≠ "Ground") ∧
    (⟨[⟨"Ground", [floor], 1, 1⟩], 1, 1⟩ : Map).Layer "Decor" =
      some (⟨[⟨"Ground", [floor], 1, 1⟩, ⟨"Decor", [nothing], 1, 1⟩], 1, 1⟩, 1) :=
  ⟨(map_layer_get_or_create ⟨[⟨"Ground", [floor], 1, 1⟩], 1, 1⟩ "Ground" 1 1).1
      ⟨⟨"Ground", [floor], 1, 1⟩, List.mem_singleton.2 rfl, rfl⟩,
    by decide⟩

/-- C7: for a rect `r = (x, y, w, h)` with `w, h >= 0` lying wholly inside a layer
(with `len(Tiles) = Width*Height`), `rectangle(r, s, true)` returns, after it a
cell `(cx, cy)` reads `s` if `r.x <= cx < r.x+r.w` and `r.y <= cy < r.y+r.h` and
reads its previous symbol otherwise, and the set of cells written is the set of
cells of `r`, each written once: it has exactly `w*h` elements. -/
theorem rectangle_filled (l : Layer) (r : rect) (s : Rune) (hwf : l.wellFormed)
    (hr : l.contains r) (hw : 0 ≤ r.w) (hh : 0 ≤ r.h) :
    (∃ l', l.rectangle r s true = some l' ∧
      l'.Name = l.Name ∧ l'.Width = l.Width ∧ l'.Height = l.Height ∧
      l'.Tiles.length = l.Tiles.length ∧
      ∀ cx cy, l.inBounds cx cy →
        ((r.x ≤ cx ∧ cx < r.x + r.w ∧ r.y ≤ cy ∧ cy < r.y + r.h) →
          l'.getTile cx cy = some s) ∧
        (¬ (r.x ≤ cx ∧ cx < r.x + r.w ∧ r.y ≤ cy ∧ cy < r.y + r.h) →
          l'.getTile cx cy = l.getTile cx cy)) ∧
    (∀ cx cy, (cx, cy) ∈ rectangleWrites r true ↔
      (r.x ≤ cx ∧ cx < r.x + r.w ∧ r.y ≤ cy ∧ cy < r.y + r.h)) ∧
    (rectangleWrites r true).Nodup ∧
    ((rectangleWrites r true).toFinset.card : Int) = r.w * r.h := by
  obtain ⟨l', hrect, hN, hW, hH, hlen, hc⟩ := rectangle_total l r s true hwf hr
  obtain ⟨hnd, hmem⟩ := rectangleWrites_spec hwf hr true
  refine ⟨⟨l', hrect, hN, hW, hH, hlen, fun cx cy hb => ⟨fun h => ?_, fun h => ?_⟩⟩,
    fun cx cy => ?_, hnd, ?_⟩
  · exact (hc cx cy hb).1 ⟨h, Or.inl rfl⟩
  · exact (hc cx cy hb).2 (fun h' => h h'.1)
  · rw [hmem]
    unfold rect.covers
    simp
  · rw [List.toFinset_card_of_nodup hnd]
    exact rectangleWrites_filled_length hwf hr hw hh

/-- Witness of C7: a filled 2x1 rect at `(1, 0)` on a 3x2 layer. -/
theorem rectangle_filled_witness :
    (⟨"Ground", List.replicate 6 nothing, 3, 2⟩ : Layer).rectangle ⟨1, 0, 2, 1⟩ wall true =
      some ⟨"Ground", [nothing, wall, wall, nothing, nothing, nothing], 3, 2⟩ ∧
    ((rectangleWrites ⟨1, 0, 2, 1⟩ true).toFinset.card : Int) = 2 * 1 :=
  ⟨by decide,
    (rectangle_filled ⟨"Ground", List.replicate 6 nothing, 3, 2⟩ ⟨1, 0, 2, 1⟩ wall
      (by decide) (by decide) (by decide) (by decide)).2.2.2⟩

/-- C8: for a rect `r` lying wholly inside a layer (with `len(Tiles) =
Width*Height`), `rectangle(r, s, false)` returns; after it the cells inside `r`
on its top row, bottom row, left column or right column read `s`, every
interior cell of `r` and every cell outside `r` keeps its previous symbol (so a
cell that did not read `s` before reads `s` exactly when it is a border cell of
`r`), and each border cell, corners included, is written once, no other cell
being written. -/
theorem rectangle_outline (l : Layer) (r : rect) (s : Rune) (hwf : l.wellFormed)
    (hr : l.contains r) :
    (∃ l', l.rectangle r s false = some l' ∧
      l'.Name = l.Name ∧ l'.Width = l.Width ∧ l'.Height = l.Height ∧
      l'.Tiles.length = l.Tiles.length ∧
      ∀ cx cy, l.inBounds cx cy →
        ((r.covers cx cy ∧ r.onBorder cx cy) → l'.getTile cx cy = some s) ∧
        (¬ (r.covers cx cy ∧ r.onBorder cx cy) → l'.getTile cx cy = l.getTile cx cy) ∧
        (l.getTile cx cy ≠ some s →
          (l'.getTile cx cy = some s ↔ (r.covers cx cy ∧ r.onBorder cx cy)))) ∧
    (∀ cx cy, List.count (cx, cy) (rectangleWrites r false) =
      if r.covers cx cy ∧ r.onBorder cx cy then 1 else 0) := by
  obtain ⟨l', hrect, hN, hW, hH, hlen, hc⟩ := rectangle_total l r s false hwf hr
  obtain ⟨hnd, hmem⟩ := rectangleWrites_spec hwf hr false
  have hP : ∀ cx cy, (r.covers cx cy ∧ (false = true ∨ r.onBorder cx cy)) ↔
      (r.covers cx cy ∧ r.onBorder cx cy) := by
    intro cx cy
    simp
  refine ⟨⟨l', hrect, hN, hW, hH, hlen, fun cx cy hb => ⟨fun h => ?_, fun h => ?_, fun h => ?_⟩⟩,
    fun cx cy => ?_⟩
  · exact (hc cx cy hb).1 ((hP cx cy).2 h)
  · exact (hc cx cy hb).2 (fun h' => h ((hP cx cy).1 h'))
  · constructor
    · intro h'
      by_contra hcon
      rw [(hc cx cy hb).2 (fun h'' => hcon ((hP cx cy).1 h''))] at h'
      exact h h'
    · intro h'
      exact (hc cx cy hb).1 ((hP cx cy).2 h')
  · by_cases h : r.covers cx cy ∧ r.onBorder cx cy
    · rw [if_pos h, count_of_nodup _ hnd, if_pos ((hmem (cx, cy)).2 ((hP cx cy).2 h))]
    · rw [if_neg h, count_of_nodup _ hnd,
        if_neg (fun hm => h ((hP cx cy).1 ((hmem (cx, cy)).1 hm)))]

/-- Witness of C8: the outline of the 3x3 rect on a 3x3 layer sets the eight
border cells and leaves the centre. -/
theorem rectangle_outline_witness :
    (⟨"Ground", List.replicate 9 nothing, 3, 3⟩ : Layer).rectangle ⟨0, 0, 3, 3⟩ wall false =
      some ⟨"Ground", [wall, wall, wall, wall, nothing, wall, wall, wall, wall], 3, 3⟩ ∧
    ∀ cx cy, List.count (cx, cy) (rectangleWrites ⟨0, 0, 3, 3⟩ false) =
      if (⟨0, 0, 3, 3⟩ : rect).covers cx cy ∧ (⟨0, 0, 3, 3⟩ : rect).onBorder cx cy
      then 1 else 0 :=
  ⟨by decide,
    (rectangle_outline ⟨"Ground", List.replicate 9 nothing, 3, 3⟩ ⟨0, 0, 3, 3⟩ wall
      (by decide) (by decide)).2⟩

/-- C9, as stated, fails: the outline of a 2x2 rect sets 4 cells, and
`4*(2+2)-4` is 12. -/
theorem rectangle_outline_count_counterexample :
    ¬ (∀ (l : Layer) (r : rect), l.wellFormed → l.contains r → 1 < r.w → 1 < r.h →
        ((rectangleWrites r false).length : Int) = 4 * (r.w + r.h) - 4) := by
  intro h
  have h1 := h ⟨"Ground", List.replicate 4 nothing, 2, 2⟩ ⟨0, 0, 2, 2⟩
    (by decide) (by decide) (by decide) (by decide)
  revert h1
  decide

/-- C9, amended: for a rect of width `w > 1` and height `h > 1` lying wholly
inside a layer, the number of cells that `rectangle(r, s, false)` sets is
`2*(w+h)-4`, each of them set once. -/
theorem rectangle_outline_count (l : Layer) (r : rect) (hwf : l.wellFormed)
    (hr : l.contains r) (hw : 1 < r.w) (hh : 1 < r.h) :
    ((rectangleWrites r false).length : Int) = 2 * (r.w + r.h) - 4 ∧
    ((rectangleWrites r false).toFinset.card : Int) = 2 * (r.w + r.h) - 4 := by
  have hlen := rectangleWrites_outline_length hwf hr hw hh
  refine ⟨hlen, ?_⟩
  rw [List.toFinset_card_of_nodup (rectangleWrites_spec hwf hr false).1]
  exact hlen

/-- Witness of the amended C9: the outline of the 3x3 rect sets 8 cells. -/
theorem rectangle_outline_count_witness :
    ((rectangleWrites ⟨0, 0, 3, 3⟩ false).length : Int) = 2 * (3 + 3) - 4 ∧
    (rectangleWrites ⟨0, 0, 3, 3⟩ false).length = 8 :=
  ⟨(rectangle_outline_count ⟨"Ground", List.replicate 9 nothing, 3, 3⟩ ⟨0, 0, 3, 3⟩
      (by decide) (by decide) (by decide) (by decide)).1,
    by decide⟩

/-- C10: for an area lying wholly inside a layer (with `len(Tiles) =
Width*Height`), `isClear` returns `true` if and only if every cell of the area
equals `nothing`; on a freshly created layer it returns `true` for every such
area; and after `setTile` of a symbol other than `nothing` at a cell inside the
area it returns `false`. `isClear` has a value receiver and contains no
assignment: its only result is the Boolean, so the layer is unchanged. -/
theorem isClear_iff_all_nothing (l : Layer) (roomX roomY roomWidth roomHeight : Int)
    (hwf : l.wellFormed) (hr : l.contains ⟨roomX, roomY, roomWidth, roomHeight⟩) :
    (∃ b, l.isClear roomX roomY roomWidth roomHeight = some b ∧
      (b = true ↔ ∀ cx cy, roomX ≤ cx → cx < roomX + roomWidth → roomY ≤ cy →
        cy < roomY + roomHeight → l.getTile cx cy = some nothing)) ∧
    (∀ (name : String) (w h : Int), newLayer name w h = some l →
      l.isClear roomX roomY roomWidth roomHeight = some true) ∧
    (∀ (cx cy : Int) (s : Rune) (l' : Layer),
      roomX ≤ cx → cx < roomX + roomWidth → roomY ≤ cy → cy < roomY + roomHeight →
      s ≠ nothing → l.setTile cx cy s = some l' →
      l'.isClear roomX roomY roomWidth roomHeight = some false) := by
  have hin : ∀ cx cy, (⟨roomX, roomY, roomWidth, roomHeight⟩ : rect).covers cx cy →
      l.inBounds cx cy := by
    intro cx cy hc
    obtain ⟨hx, hy, -, -, hxw, hyh⟩ := hr
    simp only [rect.covers] at hc
    simp only at hx hy hxw hyh
    exact ⟨by omega, by omega, by omega, by omega⟩
  obtain ⟨b, hb1, hb2⟩ := isClear_spec hwf hr
  refine ⟨⟨b, hb1, ?_⟩, ?_, ?_⟩
  · rw [hb2]
    simp only [rect.covers]
    constructor
    · intro h cx cy h1 h2 h3 h4
      exact h cx cy ⟨h1, h2, h3, h4⟩
    · intro h cx cy ⟨h1, h2, h3, h4⟩
      exact h cx cy h1 h2 h3 h4
  · intro name w h hnew
    have hb : b = true := hb2.2 (fun cx cy hc => newLayer_cells hnew cx cy (hin cx cy hc))
    rw [hb1, hb]
  · intro cx cy s l' h1 h2 h3 h4 hs hset
    have hwf' := setTile_wellFormed hwf hset
    obtain ⟨-, hW, hH, -⟩ := setTile_fields hset
    have hr' : l'.contains ⟨roomX, roomY, roomWidth, roomHeight⟩ := by
      unfold Layer.contains at *
      rw [hW, hH]
      exact hr
    obtain ⟨b', hb1', hb2'⟩ := isClear_spec hwf' hr'
    rw [hb1']
    cases b' with
    | false => rfl
    | true =>
      have h := hb2'.1 rfl cx cy ⟨h1, h2, h3, h4⟩
      rw [getTile_of_setTile hset] at h
      exact absurd (Option.some.inj h) hs

/-- Witness of C10 on a 3x3 layer that is `nothing` but for a wall at `(1, 1)`:
the area `(0, 0, 3, 1)` is clear, and it is no longer so after a write at
`(2, 0)`. -/
theorem isClear_iff_all_nothing_witness :
    (⟨"Ground", [nothing, nothing, nothing, nothing, wall, nothing, nothing, nothing,
        nothing], 3, 3⟩ : Layer).isClear 0 0 3 1 = some true ∧
    (⟨"Ground", [nothing, nothing, nothing, nothing, wall, nothing, nothing, nothing,
        nothing], 3, 3⟩ : Layer).isClear 0 0 3 3 = some false ∧
    (⟨"Ground", [nothing, nothing, floor, nothing, wall, nothing, nothing, nothing,
        nothing], 3, 3⟩ : Layer).isClear 0 0 3 1 = some false :=
  ⟨by decide, by decide,
    (isClear_iff_all_nothing
      ⟨"Ground", [nothing, nothing, nothing, nothing, wall, nothing, nothing, nothing,
        nothing], 3, 3⟩ 0 0 3 1 (by decide) (by decide)).2.2 2 0 floor
      ⟨"Ground", [nothing, nothing, floor, nothing, wall, nothing, nothing, nothing,
        nothing], 3, 3⟩
      (by decide) (by decide) (by decide) (by decide) (by decide) (by decide)⟩

/-- C11: on a layer with `len(Tiles) = Width*Height`, for `x`, `y`, `r` whose
square has representable bounds (`x+r`, `y+r` below the largest `int`),
`countTiles(x, y, r, t)` returns the number of positions of the square
`[x-r, x+r] x [y-r, y+r]` that are out of bounds plus the number of its
in-bounds positions whose tile equals `t`, as a Go `int` (the number itself when
it is representable). On a 1x1 layer `countTiles(0, 0, 1, t)` is 8, plus 1 if
the single cell equals `t`. -/
theorem countTiles_counts_square (l : Layer) (x y r : Int) (t : Rune) (hwf : l.wellFormed)
    (hx1 : isInt64 (x - r)) (hx2 : isInt64 (x + r)) (hx3 : x + r < 9223372036854775807)
    (hy1 : isInt64 (y - r)) (hy2 : isInt64 (y + r)) (hy3 : y + r < 9223372036854775807) :
    l.countTiles x y r t = some (wrap64 (l.matchingInSquare x y r t : Nat)) ∧
    (isInt64 (l.matchingInSquare x y r t : Nat) →
      l.countTiles x y r t = some ((l.matchingInSquare x y r t : Nat) : Int)) ∧
    (∀ (name : String) (c : Rune),
      (⟨name, [c], 1, 1⟩ : Layer).countTiles 0 0 1 t = some (8 + if c = t then 1 else 0)) := by
  have h := countTiles_eq hwf x y r t hx1 hx2 hx3 hy1 hy2 hy3
  refine ⟨h, fun hi => ?_, fun name c => ?_⟩
  · rw [h, wrap64_of_isInt64 hi]
  · have w1 : wrap64 (0 - 1) = -1 := by decide
    have w2 : wrap64 (0 + 1) = 1 := by decide
    unfold Layer.countTiles forLoopLe
    rw [w1, w2]
    have hn : (1 + 1 - (-1 : Int)).toNat = 3 := by decide
    simp only [if_neg (show ¬ (1 : Int) = 9223372036854775807 by decide), hn]
    have h0 : wrap64 0 = 0 := by decide
    have h1 : wrap64 1 = 1 := by decide
    have h2 : wrap64 2 = 2 := by decide
    have h3 : wrap64 3 = 3 := by decide
    have h4 : wrap64 4 = 4 := by decide
    have h5 : wrap64 5 = 5 := by decide
    have h6 : wrap64 6 = 6 := by decide
    have h7 : wrap64 7 = 7 := by decide
    have h8 : wrap64 8 = 8 := by decide
    have h9 : wrap64 9 = 9 := by decide
    by_cases e : c = t
    · simp [forLoop, Layer.getTile, Layer.slot, e, h0, h1, h2, h3, h4, h5, h6, h7, h8, h9]
    · simp [forLoop, Layer.getTile, Layer.slot, e, h0, h1, h2, h3, h4, h5, h6, h7, h8, h9]

/-- Witness of C11: the centre of a 3x3 layer with walls in the corners, radius 1
and radius 2. -/
theorem countTiles_counts_square_witness :
    (⟨"Ground", [wall, nothing, wall, nothing, nothing, nothing, wall, nothing, wall], 3, 3⟩
      : Layer).countTiles 1 1 1 wall = some 4 ∧
    (⟨"Ground", [wall, nothing, wall, nothing, nothing, nothing, wall, nothing, wall], 3, 3⟩
      : Layer).countTiles 1 1 2 wall =
      some (wrap64 ((⟨"Ground", [wall, nothing, wall, nothing, nothing, nothing, wall, nothing,
        wall], 3, 3⟩ : Layer).matchingInSquare 1 1 2 wall : Nat)) :=
  ⟨by decide,
    (countTiles_counts_square
      ⟨"Ground", [wall, nothing, wall, nothing, nothing, nothing, wall, nothing, wall], 3, 3⟩
      1 1 2 wall (by decide) (by decide) (by decide) (by decide) (by decide) (by decide)
      (by decide)).1⟩

/-- C12: the 16 cases of the switch of `get16Tile` cover every combination of
`up`, `right`, `down`, `left` exactly once: for each combination exactly one case
condition holds, so the switch always selects an index (the final
`panic("unknown error")` is not reached), the index is below 16, the case in
position `k` returns index `k`, and the map from the combination to the index is
injective and onto `0..15`. -/
theorem get16Tile_switch_covers :
    (∀ up right down left : Bool,
      get16Cases.countP (fun c => c.1 up right down left) = 1) ∧
    (∀ up right down left : Bool, get16Slot up right down left ≠ none) ∧
    (∀ up right down left : Bool, ∃ k : Fin 16, get16Slot up right down left = some k.val) ∧
    get16Cases.map (fun c => c.2) = List.range 16 ∧
    (∀ u r d l u' r' d' l' : Bool, get16Slot u r d l = get16Slot u' r' d' l' →
      (u, r, d, l) = (u', r', d', l')) ∧
    (∀ k : Fin 16, ∃ u r d l : Bool, get16Slot u r d l = some k.val) :=
  ⟨by decide, by decide, by decide, by decide, by decide, by decide⟩

/-- C13: with the neighbour tests `up`, `right`, `down`, `left`, `get16Tile`
returns the entry of the id array at the index the switch selects, and that
index is: 0 when all four match; with exactly three matching 1, 3, 5, 7 for up,
right, down, left missing; with two adjacent matching 2, 4, 6, 8 for up+right,
right+down, down+left, left+up missing; 9 when exactly left and right match; 10
when exactly up and down match; one of 11-14 when exactly one matches; 15 when
none matches. -/
theorem get16Tile_selects (m : Map) (x y : Int) (tile : Rune) (ids : List String)
    (up right down left : Bool)
    (hu : isSameTile m x (wrap64 (y - 1)) tile = some up)
    (hr : isSameTile m (wrap64 (x + 1)) y tile = some right)
    (hd : isSameTile m x (wrap64 (y + 1)) tile = some down)
    (hl : isSameTile m (wrap64 (x - 1)) y tile = some left) :
    (∃ k : Fin 16, get16Slot up right down left = some k.val ∧
      get16Tile m x y tile ids = ids[k.val]?) ∧
    get16Slot true true true true = some 0 ∧
    get16Slot false true true true = some 1 ∧
    get16Slot true false true true = some 3 ∧
    get16Slot true true false true = some 5 ∧
    get16Slot true true true false = some 7 ∧
    get16Slot false false true true = some 2 ∧
    get16Slot true false false true = some 4 ∧
    get16Slot true true false false = some 6 ∧
    get16Slot false true true false = some 8 ∧
    get16Slot false true false true = some 9 ∧
    get16Slot true false true false = some 10 ∧
    (∀ u r d l : Bool, (u.toNat + r.toNat + d.toNat + l.toNat = 1) →
      ∃ k : Fin 16, get16Slot u r d l = some k.val ∧ 11 ≤ k.val ∧ k.val ≤ 14) ∧
    get16Slot false false false false = some 15 := by
  refine ⟨?_, by decide, by decide, by decide, by decide, by decide, by decide, by decide,
    by decide, by decide, by decide, by decide, by decide, by decide⟩
  have hall : ∀ u r d l : Bool, ∃ k : Fin 16, get16Slot u r d l = some k.val := by decide
  obtain ⟨k, hk⟩ := hall up right down left
  refine ⟨k, hk, ?_⟩
  rw [get16Tile_eq hu hr hd hl, hk]

/-- Witness of C13: the middle cell of a row of three walls on a 3x1 map is
exported from index 9 of the wall ids. -/
theorem get16Tile_selects_witness :
    ∃ k : Fin 16, get16Slot false true false true = some k.val ∧
      get16Tile ⟨[⟨"Ground", [wall, wall, wall], 3, 1⟩], 3, 1⟩ 1 0 wall
        DawnLikeTemplate.wallIDs = DawnLikeTemplate.wallIDs[k.val]? :=
  (get16Tile_selects ⟨[⟨"Ground", [wall, wall, wall], 3, 1⟩], 3, 1⟩ 1 0 wall
    DawnLikeTemplate.wallIDs false true false true (by decide) (by decide) (by decide)
    (by decide)).1

/-- C14, as stated, fails: with only the up neighbour matching the switch selects
index 13, not 11 (and 14, 11, 12 for only right, only down, only left). On the
1x2 map of two walls the lower cell, whose only matching neighbour is above it,
gets `wallIDs[13]`, which for DawnLike is "89", not `wallIDs[11]` = "88". -/
theorem get16Tile_endcap_counterexample :
    get16Slot true false false false ≠ some 11 ∧
    get16Slot false true false false ≠ some 12 ∧
    get16Slot false false true false ≠ some 13 ∧
    get16Slot false false false true ≠ some 14 ∧
    isSameTile ⟨[⟨"Ground", [wall, wall], 1, 2⟩], 1, 2⟩ 0 0 wall = some true ∧
    isSameTile ⟨[⟨"Ground", [wall, wall], 1, 2⟩], 1, 2⟩ 1 1 wall = some false ∧
    isSameTile ⟨[⟨"Ground", [wall, wall], 1, 2⟩], 1, 2⟩ 0 2 wall = some false ∧
    isSameTile ⟨[⟨"Ground", [wall, wall], 1, 2⟩], 1, 2⟩ (-1) 1 wall = some false ∧
    get16Tile ⟨[⟨"Ground", [wall, wall], 1, 2⟩], 1, 2⟩ 0 1 wall DawnLikeTemplate.wallIDs
      = some "89" ∧
    DawnLikeTemplate.wallIDs[11]? = some "88" := by
  decide

/-- C14, amended: when exactly one of the four neighbours matches, `get16Tile`
selects the end tile named for the side on which the run ends, the side opposite
the matching neighbour, the four end slots being 11-14 clockwise from top (11
upper end, 12 right end, 13 bottom end, 14 left end): only down matching ->
index 11, only left matching -> index 12, only up matching -> index 13, only
right matching -> index 14. -/
theorem get16Tile_endcap (m : Map) (x y : Int) (tile : Rune) (ids : List String)
    (up right down left : Bool)
    (hu : isSameTile m x (wrap64 (y - 1)) tile = some up)
    (hr : isSameTile m (wrap64 (x + 1)) y tile = some right)
    (hd : isSameTile m x (wrap64 (y + 1)) tile = some down)
    (hl : isSameTile m (wrap64 (x - 1)) y tile = some left) :
    get16Slot false false true false = some 11 ∧
    get16Slot false false false true = some 12 ∧
    get16Slot true false false false = some 13 ∧
    get16Slot false true false false = some 14 ∧
    ((up, right, down, left) = (false, false, true, false) →
      get16Tile m x y tile ids = ids[11]?) ∧
    ((up, right, down, left) = (false, false, false, true) →
      get16Tile m x y tile ids = ids[12]?) ∧
    ((up, right, down, left) = (true, false, false, false) →
      get16Tile m x y tile ids = ids[13]?) ∧
    ((up, right, down, left) = (false, true, false, false) →
      get16Tile m x y tile ids = ids[14]?) := by
  refine ⟨by decide, by decide, by decide, by decide, ?_, ?_, ?_, ?_⟩ <;>
  · intro h
    simp only [Prod.mk.injEq] at h
    obtain ⟨rfl, rfl, rfl, rfl⟩ := h
    rw [get16Tile_eq hu hr hd hl]
    rfl

/-- Witness of the amended C14: on the 1x2 map of two walls the lower cell, whose
only matching neighbour is above it, gets `wallIDs[13]`. -/
theorem get16Tile_endcap_witness :
    get16Tile ⟨[⟨"Ground", [wall, wall], 1, 2⟩], 1, 2⟩ 0 1 wall DawnLikeTemplate.wallIDs
      = DawnLikeTemplate.wallIDs[13]? :=
  (get16Tile_endcap ⟨[⟨"Ground", [wall, wall], 1, 2⟩], 1, 2⟩ 0 1 wall
    DawnLikeTemplate.wallIDs true false false false (by decide) (by decide) (by decide)
    (by decide)).2.2.2.2.2.2.1 rfl

/-- C15: door orientation in `populateTemplate`. For a cell `(x, y)` of a
well-formed map whose visible tile is `door`, the id of the cell is `doorH` if
`x = 0` (the left neighbour is out of bounds) or the visible tile at `(x-1, y)`
is `wall` or `wall2` (the two symbols for which `IsWall` is true), and `doorV`
in every other case; it depends on no id array and no terrain flag of the
template; and it is the entry at position `x + y*Width` of an export that
returns. -/
theorem door_orientation (m : Map) (t : TMXTemplate) (x y : Int) (hwf : m.wellFormed)
    (hdoor : m.GetTile x y = some (some door)) :
    (x = 0 → exportCell m t x y = some t.doorH) ∧
    (∀ left, m.GetTile (x - 1) y = some (some left) → (left = wall ∨ left = wall2) →
      exportCell m t x y = some t.doorH) ∧
    (∀ left, m.GetTile (x - 1) y = some (some left) → left ≠ wall → left ≠ wall2 →
      exportCell m t x y = some t.doorV) ∧
    (x ≠ 0 → ∃ left, m.GetTile (x - 1) y = some (some left)) ∧
    (∀ b : Rune, IsWall b = true ↔ (b = wall ∨ b = wall2)) ∧
    (∀ t' : TMXTemplate, t'.doorH = t.doorH → t'.doorV = t.doorV →
      exportCell m t' x y = exportCell m t x y) ∧
    (∀ tiles, exportTiles m t = some tiles →
      tiles[(x + y * m.Width).toNat]? = exportCell m t x y) := by
  have hb := inBounds_of_getTile hdoor
  have hne := layers_ne_nil_of_getTile hdoor
  have hd := dimsOk_of_wellFormed hne hwf
  have hw : wrap64 (x - 1) = x - 1 := by
    apply wrap64_of_isInt64
    obtain ⟨-, -, hWi, -, -⟩ := hd
    unfold Map.inBounds at hb
    unfold isInt64 at *
    omega
  have hcell := fun t0 : TMXTemplate => exportCell_door t0 hdoor
  simp only [hw] at hcell
  refine ⟨?_, ?_, ?_, ?_, isWall_iff, ?_, ?_⟩
  · intro h0
    have hob : ¬ m.inBounds (x - 1) y := by
      unfold Map.inBounds
      omega
    rw [hcell, getTile_outOfBounds hob]
  · intro left hl hwall
    rw [hcell, hl]
    exact if_pos ((isWall_iff left).2 hwall)
  · intro left hl h1 h2
    have hnw : ¬ IsWall left = true := fun h => by
      rcases (isWall_iff left).1 h with h | h
      · exact h1 h
      · exact h2 h
    rw [hcell, hl]
    exact if_neg hnw
  · intro h0
    apply getTile_total hne hwf
    unfold Map.inBounds at *
    omega
  · intro t' h1 h2
    rw [hcell, hcell, h1, h2]
  · intro tiles htiles
    exact (exportTiles_spec hd htiles).2 x y hb

/-- Witness of C15: on the 3x1 map wall, door, door the first door has a wall to
its left and gets `doorH`, the second has a door to its left and gets `doorV`. -/
theorem door_orientation_witness :
    exportCell ⟨[⟨"Ground", [wall, door, door], 3, 1⟩], 3, 1⟩ DawnLikeTemplate 1 0
      = some "2096" ∧
    exportCell ⟨[⟨"Ground", [wall, door, door], 3, 1⟩], 3, 1⟩ DawnLikeTemplate 2 0
      = some "2097" :=
  ⟨(door_orientation ⟨[⟨"Ground", [wall, door, door], 3, 1⟩], 3, 1⟩ DawnLikeTemplate 1 0
      (by decide) (by decide)).2.1 wall (by decide) (Or.inl rfl),
    (door_orientation ⟨[⟨"Ground", [wall, door, door], 3, 1⟩], 3, 1⟩ DawnLikeTemplate 2 0
      (by decide) (by decide)).2.2.1 door (by decide) (by decide) (by decide)⟩

/-- C16: per-cell export policy of `populateTemplate`. A cell whose visible tile
is `nothing` gets `nothingID`; a cell whose visible tile is one of `floor`,
`floor2`, `wall`, `wall2`, `room`, `room2` gets entry 0 of that terrain's id
array when the terrain flag of the template is false, whatever its neighbours
are, and the entry chosen by `get16Tile` from that array when the flag is true;
and this id is the entry at position `x + y*Width` of an export that returns. -/
theorem cell_export_policy (m : Map) (t : TMXTemplate) (x y : Int) :
    (m.GetTile x y = some (some nothing) → exportCell m t x y = some t.nothingID) ∧
    (∀ (tile : Rune) (flag : Bool) (ids : List String),
      t.terrain tile = some (flag, ids) → m.GetTile x y = some (some tile) →
      (flag = false → exportCell m t x y = ids[0]?) ∧
      (flag = true → exportCell m t x y = get16Tile m x y tile ids)) ∧
    (t.terrain floor = some (t.floorTerrain, t.floorIDs) ∧
      t.terrain floor2 = some (t.floor2Terrain, t.floor2IDs) ∧
      t.terrain wall = some (t.wallTerrain, t.wallIDs) ∧
      t.terrain wall2 = some (t.wall2Terrain, t.wall2IDs) ∧
      t.terrain room = some (t.roomTerrain, t.roomIDs) ∧
      t.terrain room2 = some (t.room2Terrain, t.room2IDs)) ∧
    (m.dimsOk → m.inBounds x y → ∀ tiles, exportTiles m t = some tiles →
      tiles[(x + y * m.Width).toNat]? = exportCell m t x y) := by
  refine ⟨fun h => exportCell_nothing t h, ?_, ⟨rfl, rfl, rfl, rfl, rfl, rfl⟩, ?_⟩
  · intro tile flag ids hterr hvis
    have h := exportCell_terrain hterr hvis
    constructor
    · intro hf
      rw [h, hf]
      rfl
    · intro hf
      rw [h, hf]
      rfl
  · intro hd hb tiles htiles
    exact (exportTiles_spec hd htiles).2 x y hb

/-- Witness of C16 with DawnLike, whose `floorTerrain` is false and `wallTerrain`
true: on the 2x1 map floor, wall the floor gets `floorIDs[0]` and the wall the
entry `get16Tile` chooses (the isolated one). -/
theorem cell_export_policy_witness :
    exportCell ⟨[⟨"Ground", [floor, wall], 2, 1⟩], 2, 1⟩ DawnLikeTemplate 0 0 = some "1421" ∧
    exportCell ⟨[⟨"Ground", [floor, wall], 2, 1⟩], 2, 1⟩ DawnLikeTemplate 1 0 =
      get16Tile ⟨[⟨"Ground", [floor, wall], 2, 1⟩], 2, 1⟩ 1 0 wall DawnLikeTemplate.wallIDs :=
  ⟨((cell_export_policy ⟨[⟨"Ground", [floor, wall], 2, 1⟩], 2, 1⟩ DawnLikeTemplate 0 0).2.1
      floor false DawnLikeTemplate.floorIDs rfl (by decide)).1 rfl,
    ((cell_export_policy ⟨[⟨"Ground", [floor, wall], 2, 1⟩], 2, 1⟩ DawnLikeTemplate 1 0).2.1
      wall true DawnLikeTemplate.wallIDs rfl (by decide)).2 rfl⟩

/-- C17: the neighbour test at the grid edge. `isSameTile` returns true only when
`(x, y)` is in bounds and the visible tile there equals the given symbol; a
neighbour outside the grid, or one showing another symbol, does not match.
Hence, for a terrain that uses variants, a cell none of whose four orthogonal
neighbours matches gets entry 15 of the terrain's id array (as does the single
cell of a 1x1 map), a cell whose four neighbours all match gets entry 0, and a
cell whose left and right neighbours match while those above and below do not
gets entry 9. -/
theorem isSameTile_at_edge (m : Map) (t : TMXTemplate) (x y : Int) (tile : Rune)
    (ids : List String) (hd : m.dimsOk) (hterr : t.terrain tile = some (true, ids))
    (hvis : m.GetTile x y = some (some tile)) :
    (∀ (cx cy : Int) (s : Rune), isSameTile m cx cy s = some true ↔
      (m.inBounds cx cy ∧ m.GetTile cx cy = some (some s))) ∧
    (∀ (cx cy : Int) (s : Rune), ¬ m.inBounds cx cy → isSameTile m cx cy s = some false) ∧
    (∀ (cx cy : Int) (s s' : Rune), m.GetTile cx cy = some (some s') → s' ≠ s →
      isSameTile m cx cy s = some false) ∧
    (isSameTile m x (y - 1) tile = some false → isSameTile m (x + 1) y tile = some false →
      isSameTile m x (y + 1) tile = some false → isSameTile m (x - 1) y tile = some false →
      exportCell m t x y = ids[15]?) ∧
    (isSameTile m x (y - 1) tile = some true → isSameTile m (x + 1) y tile = some true →
      isSameTile m x (y + 1) tile = some true → isSameTile m (x - 1) y tile = some true →
      exportCell m t x y = ids[0]?) ∧
    (isSameTile m x (y - 1) tile = some false → isSameTile m (x + 1) y tile = some true →
      isSameTile m x (y + 1) tile = some false → isSameTile m (x - 1) y tile = some true →
      exportCell m t x y = ids[9]?) ∧
    (∀ name : String, exportCell ⟨[⟨name, [tile], 1, 1⟩], 1, 1⟩ t 0 0 = ids[15]?) := by
  refine ⟨?_, ?_, ?_, ?_, ?_, ?_, ?_⟩
  · intro cx cy s
    rw [isSameTile_eq_true_iff]
    exact ⟨fun h => ⟨inBounds_of_getTile h, h⟩, fun h => h.2⟩
  · intro cx cy s h
    exact isSameTile_outOfBounds s h
  · intro cx cy s s' h hne
    exact isSameTile_of_ne h hne
  · intro hu hr hdn hl
    rw [exportCell_variants hd hterr hvis hu hr hdn hl]
    rfl
  · intro hu hr hdn hl
    rw [exportCell_variants hd hterr hvis hu hr hdn hl]
    rfl
  · intro hu hr hdn hl
    rw [exportCell_variants hd hterr hvis hu hr hdn hl]
    rfl
  · intro name
    have hd1 : (⟨[⟨name, [tile], 1, 1⟩], 1, 1⟩ : Map).dimsOk := by
      simp only [Map.dimsOk]
      decide
    have h0 : wrap64 0 = 0 := by decide
    have hv1 : (⟨[⟨name, [tile], 1, 1⟩], 1, 1⟩ : Map).GetTile 0 0 = some (some tile) := by
      simp [Map.GetTile, Map.printCell, printCellFrom, Layer.getTile, Layer.slot, h0]
    rw [exportCell_variants hd1 hterr hv1
      (isSameTile_outOfBounds tile (by simp only [Map.inBounds]; decide))
      (isSameTile_outOfBounds tile (by simp only [Map.inBounds]; decide))
      (isSameTile_outOfBounds tile (by simp only [Map.inBounds]; decide))
      (isSameTile_outOfBounds tile (by simp only [Map.inBounds]; decide))]
    rfl

/-- Witness of C17: the middle cell of a row of three walls between two rows of
`nothing`, exported with DawnLike, gets `wallIDs[9]`. -/
theorem isSameTile_at_edge_witness :
    exportCell
      ⟨[⟨"Ground", [nothing, nothing, nothing, wall, wall, wall, nothing, nothing, nothing],
        3, 3⟩], 3, 3⟩ DawnLikeTemplate 1 1 = DawnLikeTemplate.wallIDs[9]? :=
  (isSameTile_at_edge
    ⟨[⟨"Ground", [nothing, nothing, nothing, wall, wall, wall, nothing, nothing, nothing],
      3, 3⟩], 3, 3⟩ DawnLikeTemplate 1 1 wall DawnLikeTemplate.wallIDs
    (by decide) rfl (by decide)).2.2.2.2.2.1 (by decide) (by decide) (by decide) (by decide)

/-- C18: for a map of width `w` and height `h` all of whose cells get an id (as
they do on a well-formed map with a layer whose visible tiles all have a case in
the switch, the id arrays having 16 entries), `populateTemplate` sets the
template's `Width` to `w`, `Height` to `h` and `CSV` to the comma-joined
sequence of exactly `w*h` id strings, the id of cell `(x, y)` at position
`x + y*w`. For the 3x3 map that is `nothing` except `wall` at the centre, with
`wallTerrain` true, the sequence has 9 entries, entry 4 is `wallIDs[15]` and the
other 8 are `nothingID`; with DawnLike it is
"1031,1031,1031,1031,71,1031,1031,1031,1031". -/
theorem populateTemplate_csv (m : Map) (t : TMXTemplate) :
    (m.dimsOk → (∀ x y, m.inBounds x y → ∃ id, exportCell m t x y = some id) →
      ∃ tiles : List String,
        populateTemplate m t =
          some { t with Width := m.Width, Height := m.Height,
                        CSV := String.intercalate "," tiles } ∧
        (tiles.length : Int) = m.Width * m.Height ∧
        ∀ x y, m.inBounds x y → tiles[(x + y * m.Width).toNat]? = exportCell m t x y) ∧
    (m.Layers ≠ [] → m.wellFormed → t.arrays16 →
      (∀ x y tile, m.GetTile x y = some (some tile) → exportable tile) →
      ∀ x y, m.inBounds x y → ∃ id, exportCell m t x y = some id) ∧
    (∀ w : String, t.wallTerrain = true → t.wallIDs[15]? = some w →
      populateTemplate centreWallMap t =
        some { t with Width := 3, Height := 3,
                      CSV := String.intercalate ","
                        [t.nothingID, t.nothingID, t.nothingID, t.nothingID, w, t.nothingID,
                          t.nothingID, t.nothingID, t.nothingID] }) ∧
    populateTemplate centreWallMap DawnLikeTemplate =
      some { DawnLikeTemplate with Width := 3, Height := 3,
                                   CSV := "1031,1031,1031,1031,71,1031,1031,1031,1031" } := by
  refine ⟨?_, ?_, ?_, by decide⟩
  · intro hd hexp
    obtain ⟨tiles, h1, h2, h3⟩ := exportTiles_total hd hexp
    refine ⟨tiles, ?_, h2, h3⟩
    unfold populateTemplate
    rw [h1]
  · intro hne hwf h16 hvis x y hb
    obtain ⟨tile, ht⟩ := getTile_total hne hwf hb
    exact exportCell_of_exportable hne hwf h16 ht (hvis x y tile ht)
  · intro w hflag hw
    unfold populateTemplate
    rw [exportTiles_centreWallMap t w hflag hw]
    rfl

/-- Witness of C18: the 2x2 map floor, wall / door, nothing exported with
DawnLike. -/
theorem populateTemplate_csv_witness :
    ∃ tiles : List String,
      populateTemplate ⟨[⟨"Ground", [floor, wall, door, nothing], 2, 2⟩], 2, 2⟩
          DawnLikeTemplate =
        some { DawnLikeTemplate with Width := 2, Height := 2,
                                     CSV := String.intercalate "," tiles } ∧
      (tiles.length : Int) = 2 * 2 ∧
      ∀ x y, (⟨[⟨"Ground", [floor, wall, door, nothing], 2, 2⟩], 2, 2⟩ : Map).inBounds x y →
        tiles[(x + y * 2).toNat]? =
          exportCell ⟨[⟨"Ground", [floor, wall, door, nothing], 2, 2⟩], 2, 2⟩
            DawnLikeTemplate x y :=
  (populateTemplate_csv ⟨[⟨"Ground", [floor, wall, door, nothing], 2, 2⟩], 2, 2⟩
    DawnLikeTemplate).1 (by decide)
    (by
      intro x y hb
      simp only [Map.inBounds] at hb
      have hx : x = 0 ∨ x = 1 := by omega
      have hy : y = 0 ∨ y = 1 := by omega
      rcases hx with rfl | rfl <;> rcases hy with rfl | rfl <;>
        exact Option.isSome_iff_exists.1 (by decide))

/-- C19 on the code: on the 2x1 map whose layer "Ground" holds floor, grass and
whose layer "Structures" holds wall, `nothing`, the highest layer with a tile
other than `nothing` at `(0, 0)` is "Structures", with `wall`, but the layer
loop of `Map.Print` prints the `floor` of "Ground": the loop leaves at the
first layer from the bottom whose tile is not `nothing`. -/
theorem print_shows_lowest_layer :
    (⟨[⟨"Ground", [floor, grass], 2, 1⟩, ⟨"Structures", [wall, nothing], 2, 1⟩], 2, 1⟩
      : Map).printCell 0 0 = some (some floor) ∧
    (⟨"Structures", [wall, nothing], 2, 1⟩ : Layer).getTile 0 0 = some wall ∧
    wall ≠ nothing ∧ floor ≠ wall ∧
    (⟨[⟨"Ground", [floor, grass], 2, 1⟩, ⟨"Structures", [wall, nothing], 2, 1⟩], 2, 1⟩
      : Map).printCell 1 0 = some (some grass) := by
  decide

/-- C20 on the code: the 1x1 map whose visible tile is `road`, exported with
DawnLike (six id arrays of 16 entries). The switch of `populateTemplate` has no
case for `road`, `tileIDs` stays nil, and `get16Tile` reads `templateTiles[15]`
of the nil slice: the export faults. -/
theorem populateTemplate_road_faults :
    (⟨[⟨"Ground", [road], 1, 1⟩], 1, 1⟩ : Map).GetTile 0 0 = some (some road) ∧
    DawnLikeTemplate.arrays16 ∧
    get16Tile ⟨[⟨"Ground", [road], 1, 1⟩], 1, 1⟩ 0 0 road [] = none ∧
    exportCell ⟨[⟨"Ground", [road], 1, 1⟩], 1, 1⟩ DawnLikeTemplate 0 0 = none ∧
    populateTemplate ⟨[⟨"Ground", [road], 1, 1⟩], 1, 1⟩ DawnLikeTemplate = none := by
  decide

end Gmgmap
